import Mathlib

/-!
# Socket_connection: the protocol logic of `main.cpp`

A shallow embedding of the client in `src/main.cpp`: the two requests
(`streamAllPackets`, the resend payload of `requestMissingPackets`), the frame
decoding that both `receiveData` and `requestMissingPackets` carry, the
streaming loop, the gap computation and the resend loop.

Conventions.
* A byte is a `Nat` below 256; a buffer is a `List Nat`.
* `int` values are `Int`s kept in the range `[-2^31, 2^31)`; conversions to and
  from the 32-bit unsigned type are explicit (`toUInt32`, `toInt32`).
* The host is little-endian (the program is a Winsock program), so
  `*(int*)(buffer + k)` is `hostLoad32` and `ntohl`/`htonl` swap the four bytes.
* `std::set<int>` is a strictly ascending `List Int` (its iteration order).
* The socket, the script of what `recv` and `send` will return, the value of
  `WSAGetLastError()` and the console are one explicit state, `World`.
* Loops that the source does not bound take fuel and return `none` when it runs out.
-/

namespace SocketConnection

/-! ## Data model -/

/-- The `struct Packet` of the source. `symbol` is the `char[5]` array (four symbol
bytes and the terminator), `buySellIndicator` the raw byte, the three numbers are
`int`s. -/
structure Packet where
  symbol : List Nat
  buySellIndicator : Nat
  quantity : Int
  price : Int
  sequence : Int
deriving DecidableEq

/-! ## Machine integers and byte order -/

/-- The byte at index `i` of a buffer (`buffer[i]`). -/
def byteAt (buffer : List Nat) (i : Nat) : Nat := buffer.getD i 0

/-- The 32-bit word a little-endian host reads at `buffer + off`
(`*(int*)(buffer + off)`, taken as its unsigned bit pattern). -/
def hostLoad32 (buffer : List Nat) (off : Nat) : Nat :=
  byteAt buffer off + 2 ^ 8 * byteAt buffer (off + 1) + 2 ^ 16 * byteAt buffer (off + 2)
    + 2 ^ 24 * byteAt buffer (off + 3)

/-- The four bytes a little-endian host writes for a 32-bit word
(`*(uint32_t*)(p) = x`). -/
def hostStore32 (x : Nat) : List Nat :=
  [x % 256, x / 2 ^ 8 % 256, x / 2 ^ 16 % 256, x / 2 ^ 24 % 256]

/-- Byte swap of a 32-bit word. -/
def byteSwap32 (x : Nat) : Nat :=
  x % 256 * 2 ^ 24 + x / 2 ^ 8 % 256 * 2 ^ 16 + x / 2 ^ 16 % 256 * 2 ^ 8 + x / 2 ^ 24 % 256

/-- The function `ntohl` on a little-endian host. -/
def ntohl (x : Nat) : Nat := byteSwap32 x

/-- The function `htonl` on a little-endian host. -/
def htonl (x : Nat) : Nat := byteSwap32 x

/-- Conversion of a 32-bit unsigned value to `int` (two's complement). -/
def toInt32 (x : Nat) : Int :=
  if x % 2 ^ 32 < 2 ^ 31 then ((x % 2 ^ 32 : Nat) : Int) else ((x % 2 ^ 32 : Nat) : Int) - 2 ^ 32

/-- Conversion of an `int` to the 32-bit unsigned type. -/
def toUInt32 (i : Int) : Nat := (i % 2 ^ 32).toNat

/-- The result of `++i` on an `int`, overflow wrapping around modulo `2^32`. -/
def incInt32 (i : Int) : Int := toInt32 (toUInt32 (i + 1))

/-- The big-endian value of four bytes. -/
def bigEndian32 (b0 b1 b2 b3 : Nat) : Nat := 2 ^ 24 * b0 + 2 ^ 16 * b1 + 2 ^ 8 * b2 + b3

/-! ## Frame decoding -/

/-- The decoding of `receiveData` (lines 119-125): `memcpy` of four symbol bytes, the
terminator, the side byte, and three `ntohl(*(int*)(buffer + k))` stored into `int`s. -/
def decodeStreamed (buffer : List Nat) : Packet :=
  { symbol := [byteAt buffer 0, byteAt buffer 1, byteAt buffer 2, byteAt buffer 3, 0]
    buySellIndicator := byteAt buffer 4
    quantity := toInt32 (ntohl (hostLoad32 buffer 5))
    price := toInt32 (ntohl (hostLoad32 buffer 9))
    sequence := toInt32 (ntohl (hostLoad32 buffer 13)) }

/-- The decoding of `requestMissingPackets` (lines 90-96), the second copy of the same
statements. -/
def decodeResent (buffer : List Nat) : Packet :=
  { symbol := [byteAt buffer 0, byteAt buffer 1, byteAt buffer 2, byteAt buffer 3, 0]
    buySellIndicator := byteAt buffer 4
    quantity := toInt32 (ntohl (hostLoad32 buffer 5))
    price := toInt32 (ntohl (hostLoad32 buffer 9))
    sequence := toInt32 (ntohl (hostLoad32 buffer 13)) }

/-- Modelled from the spec: the 17-byte response frame of a packet (the server's
encoder is not part of the source): the four symbol bytes, the side byte, then
quantity, price and sequence as big-endian 32-bit words. -/
def encodeResponseFrame (p : Packet) : List Nat :=
  p.symbol.take 4 ++ [p.buySellIndicator]
    ++ (hostStore32 (toUInt32 p.quantity)).reverse
    ++ (hostStore32 (toUInt32 p.price)).reverse
    ++ (hostStore32 (toUInt32 p.sequence)).reverse

/-- A valid packet in the sense of the spec, held in the source's `Packet`: four symbol
bytes and the terminator, side `B` or `S`, quantity and price 32-bit signed, sequence
32-bit unsigned. -/
def ValidPacket (p : Packet) : Prop :=
  p.symbol.length = 5 ∧ (∀ b ∈ p.symbol, b < 256) ∧ byteAt p.symbol 4 = 0
    ∧ (p.buySellIndicator = 66 ∨ p.buySellIndicator = 83)
    ∧ (-(2 : Int) ^ 31 ≤ p.quantity ∧ p.quantity < 2 ^ 31)
    ∧ (-(2 : Int) ^ 31 ≤ p.price ∧ p.price < 2 ^ 31)
    ∧ (0 ≤ p.sequence ∧ p.sequence < 2 ^ 32)

instance (p : Packet) : Decidable (ValidPacket p) := by
  unfold ValidPacket
  infer_instance

/-! ## The socket and the console -/

/-- What one call of `recv` finds: bytes that have arrived, an orderly close (`recv`
returns 0) or an error (`recv` returns -1 and `WSAGetLastError()` is `code` from then
on). -/
inductive RecvEvent where
  | data (bytes : List Nat)
  | closed
  | error (code : Int)
deriving DecidableEq

/-- The lines the program writes to `std::cerr` and `std::cout`, with the values they
print: the sequence numbers, and in the line of the disconnect (line 133) the value of
`WSAGetLastError()`. -/
inductive Diag where
  | failedToSendRequest
  | failedResendRequest (seq : Int)
  | errorReceivingResent
  | receivedResent (sequence : Int)
  | resentIncomplete
  | incompletePacket
  | disconnected (lastError : Int)
deriving DecidableEq

/-- The socket and the console. `incoming` is what the coming `recv` calls find, in
order (an exhausted script is a closed connection); `sendResults` says for the coming
`send` calls whether they succeed (`none`) or fail with an error code (an exhausted
script is success); `sent` is the list of payloads handed to `send`, in call order;
`console` the diagnostics written so far; `lastError` the value of `WSAGetLastError()`,
the code of the last socket call that failed (a call that succeeds leaves it as it
is). -/
structure World where
  incoming : List RecvEvent
  sendResults : List (Option Int)
  sent : List (List Nat)
  console : List Diag
  lastError : Int
deriving DecidableEq

/-- Writing one line to the console. -/
def World.print (w : World) (d : Diag) : World :=
  { w with console := w.console ++ [d] }

/-- The call `recv(sock, p, len, 0)`: the return value, the bytes written at `p`, and
the socket afterwards. At most `len` bytes are taken from the arrived data; what is
left stays for the next call. -/
def recv (w : World) (len : Nat) : Int × List Nat × World :=
  match w.incoming with
  | [] => (0, [], w)
  | RecvEvent.closed :: rest => (0, [], { w with incoming := rest })
  | RecvEvent.error code :: rest => (-1, [], { w with incoming := rest, lastError := code })
  | RecvEvent.data bytes :: rest =>
    if bytes.length ≤ len then ((bytes.length : Int), bytes, { w with incoming := rest })
    else ((len : Int), bytes.take len,
      { w with incoming := RecvEvent.data (bytes.drop len) :: rest })

/-- The call `send(sock, payload, size, 0)`: the return value and the socket
afterwards. -/
def send (w : World) (payload : List Nat) : Int × World :=
  match w.sendResults with
  | [] => ((payload.length : Int), { w with sent := w.sent ++ [payload] })
  | none :: rest =>
    ((payload.length : Int), { w with sendResults := rest, sent := w.sent ++ [payload] })
  | some code :: rest =>
    (-1, { w with sendResults := rest, sent := w.sent ++ [payload], lastError := code })

/-- The buffer after `recv` wrote `bytes` at `buffer + off`. -/
def overwrite (buffer : List Nat) (off : Nat) (bytes : List Nat) : List Nat :=
  buffer.take off ++ bytes ++ buffer.drop (off + bytes.length)

/-- The local `char buffer[17]` before anything is written to it. Its contents are
indeterminate in the source; both loops decode it only after all 17 bytes were
written. -/
def freshBuffer : List Nat := List.replicate 17 0

/-! ## Requests -/

/-- The function `streamAllPackets`: the two-byte payload is handed to `send`. -/
def streamAllPackets (w : World) : World :=
  let payload : List Nat := [1, 0]
  let r := send w payload
  if r.1 < 0 then r.2.print Diag.failedToSendRequest else r.2

/-- The five bytes of `resendPayload` in `requestMissingPackets` (lines 69-71). -/
def resendPayload (seq : Int) : List Nat :=
  2 :: hostStore32 (htonl (toUInt32 seq))

/-! ## `std::set<int>` -/

/-- The call `s.insert(x)` on a `std::set<int>` kept as an ascending list. -/
def setInsert (x : Int) : List Int → List Int
  | [] => [x]
  | y :: ys =>
    if x < y then x :: y :: ys
    else if x = y then y :: ys
    else y :: setInsert x ys

/-- The test `s.find(x) != s.end()`. -/
def setContains (s : List Int) (x : Int) : Bool := s.contains x

/-! ## The resend loop -/

/-- The inner `while (totalBytesRead < sizeof(buffer))` loop of `requestMissingPackets`
(lines 80-87); the result is the socket, the buffer and `totalBytesRead` at loop exit. -/
def readResent : Nat → World → List Nat → Nat → Option (World × List Nat × Nat)
  | 0, _, _, _ => none
  | fuel + 1, w, buffer, totalBytesRead =>
    if totalBytesRead < 17 then
      let r := recv w (17 - totalBytesRead)
      if r.1 ≤ 0 then some (r.2.2.print Diag.errorReceivingResent, buffer, totalBytesRead)
      else readResent fuel r.2.2 (overwrite buffer totalBytesRead r.2.1)
        (totalBytesRead + r.1.toNat)
    else some (w, buffer, totalBytesRead)

/-- The function `requestMissingPackets` (lines 67-105): for each entry of the set, in
ascending order, one `send`, the read loop, and the decoding of a complete frame, which
is printed. The function has no access to the packet collection. The inner loop gets
fuel 18: it adds at least one byte per round, so it makes at most 17 rounds and one
last test. -/
def requestMissingPackets : World → List Int → Option World
  | w, [] => some w
  | w, seq :: rest =>
    let s := send w (resendPayload seq)
    let w1 := if s.1 < 0 then s.2.print (Diag.failedResendRequest seq) else s.2
    match readResent 18 w1 freshBuffer 0 with
    | none => none
    | some (w2, buffer, totalBytesRead) =>
      if totalBytesRead = 17 then
        let packet := decodeResent buffer
        requestMissingPackets (w2.print (Diag.receivedResent packet.sequence)) rest
      else
        requestMissingPackets (w2.print Diag.resentIncomplete) rest

/-! ## Streaming and gap computation -/

/-- The state at the exit of the streaming loop of `receiveData`. -/
structure StreamState where
  world : World
  buffer : List Nat
  packets : List Packet
  receivedSequences : List Int
  bytesRead : Int
deriving DecidableEq

/-- The loop `while ((bytesRead = recv(sock, buffer, sizeof(buffer), 0)) > 0)` of
`receiveData` (lines 113-130). Every `recv` writes at the start of the buffer; a read
shorter than 17 bytes is reported and skipped, a read of 17 bytes is decoded, pushed
onto `packets` and its sequence inserted into `receivedSequences`. -/
def receiveLoop : Nat → World → List Nat → List Packet → List Int → Option StreamState
  | 0, _, _, _, _ => none
  | fuel + 1, w, buffer, packets, receivedSequences =>
    let r := recv w 17
    if r.1 > 0 then
      let buffer1 := overwrite buffer 0 r.2.1
      if r.1 < 17 then
        receiveLoop fuel (r.2.2.print Diag.incompletePacket) buffer1 packets receivedSequences
      else
        let packet := decodeStreamed buffer1
        receiveLoop fuel r.2.2 buffer1 (packets ++ [packet])
          (setInsert packet.sequence receivedSequences)
    else
      some { world := r.2.2, buffer := buffer, packets := packets,
             receivedSequences := receivedSequences, bytesRead := r.1 }

/-- The loop `for (int i = 1; i <= lastSequence; ++i)` of `receiveData` (lines 140-144),
started at counter `i` with the set `missingSequences` built so far. -/
def gapLoop : Nat → Int → Int → List Int → List Int → Option (List Int)
  | 0, _, _, _, _ => none
  | fuel + 1, i, lastSequence, receivedSequences, missingSequences =>
    if i ≤ lastSequence then
      if setContains receivedSequences i then
        gapLoop fuel (incInt32 i) lastSequence receivedSequences missingSequences
      else
        gapLoop fuel (incInt32 i) lastSequence receivedSequences (setInsert i missingSequences)
    else some missingSequences

/-- The value `packets.back().sequence` (line 137); `none` when the vector is empty,
where `back()` has no defined result. -/
def lastSequence (packets : List Packet) : Option Int :=
  packets.getLast?.map (fun p => p.sequence)

/-- How a run of `receiveData` ends. -/
inductive Outcome where
  | done (world : World) (packets : List Packet)
  | undefinedBehaviour
  | outOfFuel
deriving DecidableEq

/-- The function `receiveData` (lines 108-149): the streaming loop, the report of the
disconnect with the value of `WSAGetLastError()`, `packets.back().sequence`, the gap loop, and the call of
`requestMissingPackets` when the gap set is not empty. `fuel` bounds the iterations of
the streaming loop and of the gap loop. -/
def receiveData (fuel : Nat) (w : World) (packets : List Packet) : Outcome :=
  match receiveLoop fuel w freshBuffer packets [] with
  | none => Outcome.outOfFuel
  | some st =>
    let w1 :=
      if st.bytesRead ≤ 0 then st.world.print (Diag.disconnected st.world.lastError)
      else st.world
    match lastSequence st.packets with
    | none => Outcome.undefinedBehaviour
    | some last =>
      match gapLoop fuel 1 last st.receivedSequences [] with
      | none => Outcome.outOfFuel
      | some missingSequences =>
        if missingSequences ≠ [] then
          match requestMissingPackets w1 missingSequences with
          | none => Outcome.outOfFuel
          | some w2 => Outcome.done w2 st.packets
        else Outcome.done w1 st.packets

/-! ## Concrete frames and sessions used as examples -/

/-- A frame for symbol `ABCD`, side `B`, quantity 10, price 100 and the given low
sequence byte. -/
def sampleFrame (seq : Nat) : List Nat :=
  [65, 66, 67, 68, 66, 0, 0, 0, 10, 0, 0, 0, 100, 0, 0, 0, seq]

/-- A socket on which nothing was sent or printed yet, no call has failed, and whose
`recv` calls find `events`. -/
def worldOf (events : List RecvEvent) : World :=
  { incoming := events, sendResults := [], sent := [], console := [], lastError := 0 }

/-- The signed (two's complement) reading of four big-endian bytes. -/
def signedBigEndian32 (b0 b1 b2 b3 : Nat) : Int :=
  if bigEndian32 b0 b1 b2 b3 < 2 ^ 31 then (bigEndian32 b0 b1 b2 b3 : Int)
  else (bigEndian32 b0 b1 b2 b3 : Int) - 2 ^ 32

/-- A valid packet whose sequence number, `2^31`, does not fit an `int`. -/
def highSequencePacket : Packet :=
  { symbol := [65, 66, 67, 68, 0], buySellIndicator := 66, quantity := 10, price := 100,
    sequence := 2147483648 }

/-- A valid packet with a negative quantity, a zero byte in its symbol and the largest
sequence number an `int` holds. -/
def samplePacket : Packet :=
  { symbol := [65, 0, 67, 68, 0], buySellIndicator := 83, quantity := -5, price := 100,
    sequence := 2147483647 }

/-- A frame with a zero byte in its symbol, side `S`, quantity -5, price 100 and
sequence `2^31 - 1`. -/
def edgeFrame : List Nat :=
  [65, 0, 67, 68, 83, 255, 255, 255, 251, 0, 0, 0, 100, 127, 255, 255, 255]

/-- The session of the end-to-end scenario: frames 1, 2 and 4, an orderly close, and
then the frame 3 as the answer to the resend request. -/
def gapSession : World :=
  worldOf [RecvEvent.data (sampleFrame 1), RecvEvent.data (sampleFrame 2),
    RecvEvent.data (sampleFrame 4), RecvEvent.closed, RecvEvent.data (sampleFrame 3)]

/-- The streaming state the session `gapSession` ends in. -/
def gapSessionState : StreamState :=
  { world := worldOf [RecvEvent.data (sampleFrame 3)]
    buffer := sampleFrame 4
    packets := [decodeStreamed (sampleFrame 1), decodeStreamed (sampleFrame 2),
      decodeStreamed (sampleFrame 4)]
    receivedSequences := [1, 2, 4]
    bytesRead := 0 }

/-- A stream that delivers the frame 5 and then the frame 2. -/
def unorderedSession : World :=
  worldOf [RecvEvent.data (sampleFrame 5), RecvEvent.data (sampleFrame 2), RecvEvent.closed]

/-- A stream that delivers the frame 3 and then the frame 1. -/
def descendingSession : World :=
  worldOf [RecvEvent.data (sampleFrame 3), RecvEvent.data (sampleFrame 1), RecvEvent.closed]

/-- A stream that closes before any frame. -/
def emptySession : World := worldOf [RecvEvent.closed]

/-- The frame 1 arriving in two reads, of 10 and of 7 bytes. -/
def splitSession : World :=
  worldOf [RecvEvent.data ((sampleFrame 1).take 10), RecvEvent.data ((sampleFrame 1).drop 10),
    RecvEvent.closed]

/-- The frame 1 arriving in one read. -/
def wholeSession : World := worldOf [RecvEvent.data (sampleFrame 1), RecvEvent.closed]

/-- The number of bytes and events a script of `recv` results still holds; every round
of the streaming loop that goes on lowers it. -/
def scriptSize : List RecvEvent → Nat
  | [] => 0
  | RecvEvent.data bytes :: rest => bytes.length + 1 + scriptSize rest
  | RecvEvent.closed :: rest => 1 + scriptSize rest
  | RecvEvent.error _ :: rest => 1 + scriptSize rest

/-- A `std::set<int>` filled by inserting the elements of `xs` one after the other, in
the order of `xs`. -/
def setOfList (xs : List Int) : List Int :=
  xs.foldl (fun s x => setInsert x s) []

/-- Modelled from the spec: the sequence number a resend request carries on the wire,
the big-endian 32-bit word after the opcode byte (the server that reads it is not part of
the source). -/
def requestSequence (payload : List Nat) : Nat :=
  bigEndian32 (byteAt payload 1) (byteAt payload 2) (byteAt payload 3) (byteAt payload 4)

/-- The socket after the `send` of the resend request for `seq` and the report of its
failure (lines 73-75 of `requestMissingPackets`). -/
def afterResendRequest (w : World) (seq : Int) : World :=
  if (send w (resendPayload seq)).1 < 0
  then (send w (resendPayload seq)).2.print (Diag.failedResendRequest seq)
  else (send w (resendPayload seq)).2

/-- The received set that holds every sequence number from 1 to `2^31 - 1`. -/
def completeReceived : List Int := (List.range' 1 2147483647).map Int.ofNat

/-- The reads of 17 bytes among the reads of a stream: the ones the streaming loop
decodes. -/
def fullReads (reads : List (List Nat)) : List (List Nat) :=
  reads.filter (fun r => decide (r.length = 17))

/-- The reads shorter than 17 bytes among the reads of a stream: the ones the streaming
loop reports and skips. -/
def shortReads (reads : List (List Nat)) : List (List Nat) :=
  reads.filter (fun r => decide (r.length < 17))

/-- The received set after the sequences of the decoded `frames` were inserted into
`received`, in arrival order. -/
def insertSequences (received : List Int) (frames : List (List Nat)) : List Int :=
  frames.foldl (fun s f => setInsert (decodeStreamed f).sequence s) received

/-- The socket at the end of the run of `receiveData` on `gapSession`. -/
def gapSessionEnd : World :=
  { incoming := [], sendResults := [], sent := [[2, 0, 0, 0, 3]],
    console := [Diag.disconnected 0, Diag.receivedResent 3], lastError := 0 }

/-- A session with two gaps: the frames 1 and 4 and an orderly close; the answer to the
resend request for 2 stops after 10 bytes, the answer to the request for 3 is the
frame 3. -/
def failedResendSession : World :=
  worldOf [RecvEvent.data (sampleFrame 1), RecvEvent.data (sampleFrame 4), RecvEvent.closed,
    RecvEvent.data ((sampleFrame 2).take 10), RecvEvent.closed, RecvEvent.data (sampleFrame 3)]

/-- The streaming state the session `failedResendSession` ends in. -/
def failedResendState : StreamState :=
  { world := worldOf [RecvEvent.data ((sampleFrame 2).take 10), RecvEvent.closed,
      RecvEvent.data (sampleFrame 3)]
    buffer := sampleFrame 4
    packets := [decodeStreamed (sampleFrame 1), decodeStreamed (sampleFrame 4)]
    receivedSequences := [1, 4]
    bytesRead := 0 }

/-- The socket of `failedResendSession` when the read of the answer for 2 has ended. -/
def failedResendMiddle : World :=
  { incoming := [RecvEvent.data (sampleFrame 3)], sendResults := [], sent := [[2, 0, 0, 0, 2]],
    console := [Diag.disconnected 0, Diag.errorReceivingResent], lastError := 0 }

/-- The socket at the end of the run of `receiveData` on `failedResendSession`. -/
def failedResendEnd : World :=
  { incoming := [], sendResults := [], sent := [[2, 0, 0, 0, 2], [2, 0, 0, 0, 3]],
    console := [Diag.disconnected 0, Diag.errorReceivingResent, Diag.resentIncomplete,
      Diag.receivedResent 3], lastError := 0 }

/-- A complete frame with sequence 1 whose side byte is `X`, neither `B` nor `S`. -/
def invalidSideFrame : List Nat :=
  [65, 66, 67, 68, 88, 0, 0, 0, 10, 0, 0, 0, 100, 0, 0, 0, 1]

/-- A stream that delivers the frame with side byte `X` and then the frame 2. -/
def invalidSideSession : World :=
  worldOf [RecvEvent.data invalidSideFrame, RecvEvent.data (sampleFrame 2), RecvEvent.closed]

/-- A stream that delivers the frame 1 and then the frame 2 twice. -/
def duplicateSession : World :=
  worldOf [RecvEvent.data (sampleFrame 1), RecvEvent.data (sampleFrame 2),
    RecvEvent.data (sampleFrame 2), RecvEvent.closed]

/-- The four frames 1 to 4. -/
def fourFrames : List (List Nat) := [sampleFrame 1, sampleFrame 2, sampleFrame 3, sampleFrame 4]

/-- A stream that delivers the frames 1 to 4 and then closes. -/
def fourFrameSession : World := worldOf (fourFrames.map RecvEvent.data ++ [RecvEvent.closed])

/-- A stream that delivers the frames 1 to 4, then 10 bytes of the frame 5, and then
closes. -/
def truncatedSession : World :=
  worldOf (fourFrames.map RecvEvent.data
    ++ [RecvEvent.data ((sampleFrame 5).take 10), RecvEvent.closed])

/-- An event of the `recv` script with an error read as an orderly close. -/
def RecvEvent.errorAsClosed : RecvEvent → RecvEvent
  | RecvEvent.error _ => RecvEvent.closed
  | RecvEvent.closed => RecvEvent.closed
  | RecvEvent.data bytes => RecvEvent.data bytes

/-- The socket on which every `recv` that would return an error returns 0 instead. -/
def World.errorsAsClosed (w : World) : World :=
  { w with incoming := w.incoming.map RecvEvent.errorAsClosed }

/-- A line of the console with the error code of the disconnect line left out. -/
def Diag.withoutErrorCode : Diag → Diag
  | Diag.failedToSendRequest => Diag.failedToSendRequest
  | Diag.failedResendRequest seq => Diag.failedResendRequest seq
  | Diag.errorReceivingResent => Diag.errorReceivingResent
  | Diag.receivedResent sequence => Diag.receivedResent sequence
  | Diag.resentIncomplete => Diag.resentIncomplete
  | Diag.incompletePacket => Diag.incompletePacket
  | Diag.disconnected _ => Diag.disconnected 0

/-- The socket with everything that tells an error from a close left out: the errors of
the `recv` script read as closes, and the error codes of the failing `send` calls, of
the console and of `WSAGetLastError()` set to 0. -/
def World.withoutErrors (w : World) : World :=
  { incoming := w.incoming.map RecvEvent.errorAsClosed
    sendResults := w.sendResults.map (Option.map (fun _ => 0))
    sent := w.sent
    console := w.console.map Diag.withoutErrorCode
    lastError := 0 }

/-- The outcome of a run with everything that tells an error from a close left out of
the final socket. -/
def Outcome.withoutErrors : Outcome → Outcome
  | Outcome.done w packets => Outcome.done w.withoutErrors packets
  | Outcome.undefinedBehaviour => Outcome.undefinedBehaviour
  | Outcome.outOfFuel => Outcome.outOfFuel

/-- A stream that delivers the frames 1 and 3 and then fails with the error 10054
(connection reset); the frame 2 is what a later read finds. -/
def errorSession : World :=
  worldOf [RecvEvent.data (sampleFrame 1), RecvEvent.data (sampleFrame 3),
    RecvEvent.error 10054, RecvEvent.data (sampleFrame 2)]

/-- The socket at the end of the run of `receiveData` on `errorSession`. -/
def errorSessionEnd : World :=
  { incoming := [], sendResults := [], sent := [[2, 0, 0, 0, 2]],
    console := [Diag.disconnected 10054, Diag.receivedResent 2], lastError := 10054 }

/-- The socket at the end of the run of `receiveData` on `errorSession` with the error
read as a close. -/
def errorSessionClosedEnd : World :=
  { incoming := [], sendResults := [], sent := [[2, 0, 0, 0, 2]],
    console := [Diag.disconnected 0, Diag.receivedResent 2], lastError := 0 }

/-- A frame with a zero byte in its symbol, side `S`, quantity -5, price 100 and the
sequence bytes `80 00 00 00`, the unsigned number `2^31`. -/
def signBitFrame : List Nat :=
  [65, 0, 67, 68, 83, 255, 255, 255, 251, 0, 0, 0, 100, 128, 0, 0, 0]

/-! # Theorems -/

/-! ## Byte order -/

theorem byteAt_lt (buffer : List Nat) (hb : ∀ b ∈ buffer, b < 256) (i : Nat) :
    byteAt buffer i < 256 := by
  unfold byteAt
  rw [List.getD_eq_getElem?_getD]
  cases h : buffer[i]? with
  | none => simp
  | some b => simpa using hb b (List.getElem?_mem h)

theorem ntohl_hostLoad32 (buffer : List Nat) (off : Nat)
    (h0 : byteAt buffer off < 256) (h1 : byteAt buffer (off + 1) < 256)
    (h2 : byteAt buffer (off + 2) < 256) (h3 : byteAt buffer (off + 3) < 256) :
    ntohl (hostLoad32 buffer off)
      = bigEndian32 (byteAt buffer off) (byteAt buffer (off + 1)) (byteAt buffer (off + 2))
          (byteAt buffer (off + 3)) := by
  unfold ntohl byteSwap32 hostLoad32 bigEndian32
  generalize byteAt buffer off = a at *
  generalize byteAt buffer (off + 1) = b at *
  generalize byteAt buffer (off + 2) = c at *
  generalize byteAt buffer (off + 3) = d at *
  omega

theorem toInt32_bigEndian32 (b0 b1 b2 b3 : Nat) (h0 : b0 < 256) (h1 : b1 < 256)
    (h2 : b2 < 256) (h3 : b3 < 256) :
    toInt32 (bigEndian32 b0 b1 b2 b3) = signedBigEndian32 b0 b1 b2 b3 := by
  unfold toInt32 signedBigEndian32
  have h : bigEndian32 b0 b1 b2 b3 % 2 ^ 32 = bigEndian32 b0 b1 b2 b3 := by
    unfold bigEndian32; omega
  rw [h]

theorem decodeWord (buffer : List Nat) (hb : ∀ b ∈ buffer, b < 256) (off : Nat) :
    toInt32 (ntohl (hostLoad32 buffer off))
      = signedBigEndian32 (byteAt buffer off) (byteAt buffer (off + 1))
          (byteAt buffer (off + 2)) (byteAt buffer (off + 3)) := by
  rw [ntohl_hostLoad32 buffer off (byteAt_lt buffer hb _) (byteAt_lt buffer hb _)
    (byteAt_lt buffer hb _) (byteAt_lt buffer hb _)]
  exact toInt32_bigEndian32 _ _ _ _ (byteAt_lt buffer hb _) (byteAt_lt buffer hb _)
    (byteAt_lt buffer hb _) (byteAt_lt buffer hb _)

theorem take_four (buffer : List Nat) (hlen : 4 ≤ buffer.length) :
    buffer.take 4 = [byteAt buffer 0, byteAt buffer 1, byteAt buffer 2, byteAt buffer 3] := by
  rcases buffer with _ | ⟨a, _ | ⟨b, _ | ⟨c, _ | ⟨d, rest⟩⟩⟩⟩ <;> simp [byteAt] at hlen ⊢

theorem toInt32_toUInt32 (i : Int) (h1 : -(2 : Int) ^ 31 ≤ i) (h2 : i < 2 ^ 31) :
    toInt32 (toUInt32 i) = i := by
  unfold toInt32 toUInt32
  split <;> omega

theorem bigEndian32_bytes (x : Nat) :
    bigEndian32 (x / 2 ^ 24 % 256) (x / 2 ^ 16 % 256) (x / 2 ^ 8 % 256) (x % 256) = x % 2 ^ 32 := by
  unfold bigEndian32
  omega

theorem hostStore32_byteSwap32 (x : Nat) :
    hostStore32 (byteSwap32 x)
      = [x / 2 ^ 24 % 256, x / 2 ^ 16 % 256, x / 2 ^ 8 % 256, x % 256] := by
  unfold hostStore32 byteSwap32
  have ha : x % 256 < 256 := Nat.mod_lt _ (by norm_num)
  have hb : x / 2 ^ 8 % 256 < 256 := Nat.mod_lt _ (by norm_num)
  have hc : x / 2 ^ 16 % 256 < 256 := Nat.mod_lt _ (by norm_num)
  have hd : x / 2 ^ 24 % 256 < 256 := Nat.mod_lt _ (by norm_num)
  generalize x % 256 = a at *
  generalize x / 2 ^ 8 % 256 = b at *
  generalize x / 2 ^ 16 % 256 = c at *
  generalize x / 2 ^ 24 % 256 = d at *
  simp only [List.cons.injEq, and_true]
  refine ⟨?_, ?_, ?_, ?_⟩ <;> omega

theorem decode_encode_word (x : Nat) (buffer : List Nat) (off : Nat)
    (h0 : byteAt buffer off = x / 2 ^ 24 % 256) (h1 : byteAt buffer (off + 1) = x / 2 ^ 16 % 256)
    (h2 : byteAt buffer (off + 2) = x / 2 ^ 8 % 256) (h3 : byteAt buffer (off + 3) = x % 256) :
    ntohl (hostLoad32 buffer off) = x % 2 ^ 32 := by
  rw [ntohl_hostLoad32 buffer off (by omega) (by omega) (by omega) (by omega), h0, h1, h2, h3]
  exact bigEndian32_bytes x

theorem toUInt32_lt (i : Int) : toUInt32 i < 2 ^ 32 := by
  unfold toUInt32; omega

/-! ## The ordered set -/

theorem mem_setInsert (x k : Int) (s : List Int) : k ∈ setInsert x s ↔ k = x ∨ k ∈ s := by
  induction s with
  | nil => simp [setInsert]
  | cons y ys ih =>
    unfold setInsert
    split
    · simp
    · split
      · rename_i hxy
        subst hxy
        simp
      · simp only [List.mem_cons, ih]
        tauto

theorem pairwise_setInsert (x : Int) (s : List Int) (hs : s.Pairwise (· < ·)) :
    (setInsert x s).Pairwise (· < ·) := by
  induction s with
  | nil => simp [setInsert]
  | cons y ys ih =>
    rw [List.pairwise_cons] at hs
    unfold setInsert
    split
    · rename_i hxy
      refine List.pairwise_cons.mpr ⟨?_, List.pairwise_cons.mpr hs⟩
      intro a ha
      rcases List.mem_cons.mp ha with h | h
      · omega
      · have := hs.1 a h
        omega
    · split
      · exact List.pairwise_cons.mpr hs
      · refine List.pairwise_cons.mpr ⟨?_, ih hs.2⟩
        intro a ha
        rcases (mem_setInsert x a ys).mp ha with h | h
        · omega
        · exact hs.1 a h

theorem setContains_iff (s : List Int) (x : Int) : setContains s x = true ↔ x ∈ s := by
  simp [setContains]

/-! ## The gap loop -/

theorem toInt32_range (x : Nat) : -(2 : Int) ^ 31 ≤ toInt32 x ∧ toInt32 x < 2 ^ 31 := by
  unfold toInt32
  split <;> omega

theorem incInt32_eq (i : Int) (h1 : -(2 : Int) ^ 31 ≤ i + 1) (h2 : i + 1 < 2 ^ 31) :
    incInt32 i = i + 1 :=
  toInt32_toUInt32 (i + 1) h1 h2

theorem gapLoop_spec (lastSeq : Int) (received : List Int) (hmax : lastSeq < 2 ^ 31 - 1) :
    ∀ (fuel : Nat) (i : Int) (missing : List Int), 1 ≤ i → i ≤ lastSeq + 1 →
      (lastSeq + 1 - i).toNat < fuel → missing.Pairwise (· < ·) → (∀ m ∈ missing, m < i) →
      ∃ r, gapLoop fuel i lastSeq received missing = some r ∧ r.Pairwise (· < ·)
        ∧ ∀ k, k ∈ r ↔ k ∈ missing ∨ (i ≤ k ∧ k ≤ lastSeq ∧ k ∉ received) := by
  intro fuel
  induction fuel with
  | zero => intro i missing _ _ hf; omega
  | succ fuel ih =>
    intro i missing h1 h2 hf hs hlt
    unfold gapLoop
    by_cases hi : i ≤ lastSeq
    · rw [if_pos hi, incInt32_eq i (by omega) (by omega)]
      by_cases hc : setContains received i = true
      · rw [if_pos hc]
        obtain ⟨r, hr, hsr, hmem⟩ := ih (i + 1) missing (by omega) (by omega) (by omega) hs
          (fun m hm => by have := hlt m hm; omega)
        refine ⟨r, hr, hsr, fun k => ?_⟩
        rw [hmem k]
        have hci := (setContains_iff received i).mp hc
        constructor
        · rintro (h | ⟨ha, hb, hn⟩)
          · exact Or.inl h
          · exact Or.inr ⟨by omega, hb, hn⟩
        · rintro (h | ⟨ha, hb, hn⟩)
          · exact Or.inl h
          · refine Or.inr ⟨?_, hb, hn⟩
            by_contra hk
            have : k = i := by omega
            exact hn (this ▸ hci)
      · rw [if_neg hc]
        have hci : i ∉ received := fun h => hc ((setContains_iff received i).mpr h)
        obtain ⟨r, hr, hsr, hmem⟩ := ih (i + 1) (setInsert i missing) (by omega) (by omega)
          (by omega) (pairwise_setInsert i missing hs)
          (fun m hm => by
            rcases (mem_setInsert i m missing).mp hm with h | h
            · omega
            · have := hlt m h; omega)
        refine ⟨r, hr, hsr, fun k => ?_⟩
        rw [hmem k, mem_setInsert]
        constructor
        · rintro ((h | h) | ⟨ha, hb, hn⟩)
          · exact Or.inr ⟨by omega, by omega, h ▸ hci⟩
          · exact Or.inl h
          · exact Or.inr ⟨by omega, hb, hn⟩
        · rintro (h | ⟨ha, hb, hn⟩)
          · exact Or.inl (Or.inr h)
          · by_cases hk : k = i
            · exact Or.inl (Or.inl hk)
            · exact Or.inr ⟨by omega, hb, hn⟩
    · rw [if_neg hi]
      refine ⟨missing, rfl, hs, fun k => ?_⟩
      constructor
      · exact Or.inl
      · rintro (h | ⟨ha, hb, _⟩)
        · exact h
        · omega

theorem gapLoop_correct (lastSeq : Int) (received : List Int) (h0 : 0 ≤ lastSeq)
    (hmax : lastSeq < 2 ^ 31 - 1) (fuel : Nat) (hfuel : lastSeq.toNat < fuel) :
    ∃ r, gapLoop fuel 1 lastSeq received [] = some r ∧ r.Pairwise (· < ·)
      ∧ ∀ k, k ∈ r ↔ (1 ≤ k ∧ k ≤ lastSeq ∧ k ∉ received) := by
  obtain ⟨r, hr, hs, hmem⟩ := gapLoop_spec lastSeq received hmax fuel 1 [] (by omega) (by omega)
    (by omega) List.Pairwise.nil (fun m hm => by simp at hm)
  exact ⟨r, hr, hs, fun k => by rw [hmem k]; simp⟩

theorem gapLoop_below_one (lastSeq : Int) (received : List Int) (h0 : lastSeq < 1) (fuel : Nat) :
    gapLoop (fuel + 1) 1 lastSeq received [] = some [] := by
  unfold gapLoop
  rw [if_neg (by omega)]

theorem gapLoop_intMax (received : List Int) :
    ∀ (fuel : Nat) (i : Int) (missing : List Int), i < 2 ^ 31 →
      gapLoop fuel i 2147483647 received missing = none := by
  intro fuel
  induction fuel with
  | zero => intro i missing _; rfl
  | succ fuel ih =>
    intro i missing hi
    have hinc : incInt32 i < 2 ^ 31 := (toInt32_range _).2
    unfold gapLoop
    rw [if_pos (by omega)]
    split
    · exact ih _ _ hinc
    · exact ih _ _ hinc

/-! ## The streaming loop -/

theorem receiveLoop_inv :
    ∀ (fuel : Nat) (w : World) (buffer : List Nat) (packets : List Packet) (received : List Int)
      (st : StreamState), receiveLoop fuel w buffer packets received = some st →
      ∃ new, st.packets = packets ++ new
        ∧ (∀ k, k ∈ st.receivedSequences ↔ k ∈ received ∨ k ∈ new.map (fun p => p.sequence))
        ∧ st.bytesRead ≤ 0 := by
  intro fuel
  induction fuel with
  | zero => intro w buffer packets received st h; simp [receiveLoop] at h
  | succ fuel ih =>
    intro w buffer packets received st h
    unfold receiveLoop at h
    simp only at h
    split at h
    · split at h
      · exact ih _ _ _ _ _ h
      · obtain ⟨new, hp, hm, hb⟩ := ih _ _ _ _ _ h
        refine ⟨decodeStreamed (overwrite buffer 0 (recv w 17).2.1) :: new, ?_, ?_, hb⟩
        · rw [hp]; simp
        · intro k
          rw [hm k, mem_setInsert]
          simp only [List.map_cons, List.mem_cons]
          tauto
    · rename_i hr
      simp only [Option.some.injEq] at h
      subst h
      exact ⟨[], by simp, by simp, by simpa using hr⟩

theorem lastSequence_append_singleton (front : List Packet) (p : Packet) :
    lastSequence (front ++ [p]) = some p.sequence := by
  simp [lastSequence]

theorem lastSequence_mem (packets : List Packet) (lastSeq : Int)
    (h : lastSequence packets = some lastSeq) :
    lastSeq ∈ packets.map (fun p => p.sequence) := by
  unfold lastSequence at h
  cases hl : packets.getLast? with
  | none => simp [hl] at h
  | some p =>
    simp [hl] at h
    exact List.mem_map.mpr ⟨p, List.mem_of_getLast?_eq_some hl, h⟩

/-! ## Fuel -/

theorem readResent_returns :
    ∀ (fuel : Nat) (w : World) (buffer : List Nat) (total : Nat), 17 - total < fuel →
      ∃ r, readResent fuel w buffer total = some r := by
  intro fuel
  induction fuel with
  | zero => intro w buffer total h; omega
  | succ fuel ih =>
    intro w buffer total h
    unfold readResent
    by_cases ht : total < 17
    · rw [if_pos ht]
      simp only
      by_cases hr : (recv w (17 - total)).1 ≤ 0
      · rw [if_pos hr]
        exact ⟨_, rfl⟩
      · rw [if_neg hr]
        exact ih _ _ _ (by omega)
    · rw [if_neg ht]
      exact ⟨_, rfl⟩

theorem requestMissingPackets_returns :
    ∀ (missing : List Int) (w : World), ∃ w1, requestMissingPackets w missing = some w1 := by
  intro missing
  induction missing with
  | nil => intro w; exact ⟨w, rfl⟩
  | cons seq rest ih =>
    intro w
    unfold requestMissingPackets
    simp only
    obtain ⟨r, hr⟩ := readResent_returns 18
      (if (send w (resendPayload seq)).1 < 0
        then (send w (resendPayload seq)).2.print (Diag.failedResendRequest seq)
        else (send w (resendPayload seq)).2) freshBuffer 0 (by omega)
    rw [hr]
    obtain ⟨w2, buffer, total⟩ := r
    simp only
    split
    · exact ih _
    · exact ih _

/-- The collection that `receiveData` ends with is the collection at the exit of the
streaming loop: the resend phase has no access to it. -/
theorem receiveData_packets (fuel : Nat) (w w1 : World) (packets packets1 : List Packet)
    (h : receiveData fuel w packets = Outcome.done w1 packets1) :
    ∃ st, receiveLoop fuel w freshBuffer packets [] = some st ∧ packets1 = st.packets := by
  unfold receiveData at h
  cases hs : receiveLoop fuel w freshBuffer packets [] with
  | none => simp [hs] at h
  | some st =>
    refine ⟨st, rfl, ?_⟩
    simp only [hs] at h
    split at h
    · simp at h
    · split at h
      · simp at h
      · split at h
        · split at h
          · simp at h
          · simp only [Outcome.done.injEq] at h
            exact h.2.symm
        · simp only [Outcome.done.injEq] at h
          exact h.2.symm

theorem recv_scriptSize (w : World) (len : Nat) (hlen : 0 < len) (h : (recv w len).1 > 0) :
    scriptSize (recv w len).2.2.incoming < scriptSize w.incoming := by
  unfold recv at h ⊢
  rcases hi : w.incoming with _ | ⟨ev, rest⟩
  · simp [hi] at h
  · cases ev with
    | data bytes =>
      simp only [hi] at h ⊢
      split
      · simp [scriptSize]
      · simp only [scriptSize, List.length_drop]
        omega
    | closed => simp [hi] at h
    | error code => simp [hi] at h

theorem receiveLoop_returns :
    ∀ (fuel : Nat) (w : World) (buffer : List Nat) (packets : List Packet)
      (received : List Int), scriptSize w.incoming < fuel →
      ∃ st, receiveLoop fuel w buffer packets received = some st := by
  intro fuel
  induction fuel with
  | zero => intro w buffer packets received h; omega
  | succ fuel ih =>
    intro w buffer packets received h
    unfold receiveLoop
    simp only
    by_cases hr : (recv w 17).1 > 0
    · have hs := recv_scriptSize w 17 (by omega) hr
      rw [if_pos hr]
      split
      · exact ih _ _ _ _ (by simp only [World.print]; omega)
      · exact ih _ _ _ _ (by omega)
    · rw [if_neg hr]
      exact ⟨_, rfl⟩

/-- Reads shorter than 17 bytes leave the collection and the received set as they are,
whatever bytes they carry: the streaming loop skips each of them. -/
theorem receiveLoop_skips_short_reads :
    ∀ (chunks : List (List Nat)) (rest : List RecvEvent) (w : World) (buffer : List Nat)
      (packets : List Packet) (received : List Int) (fuel : Nat),
      (∀ c ∈ chunks, 0 < c.length ∧ c.length < 17) →
      w.incoming = chunks.map RecvEvent.data ++ RecvEvent.closed :: rest →
      chunks.length < fuel →
      ∃ st, receiveLoop fuel w buffer packets received = some st ∧ st.packets = packets
        ∧ st.receivedSequences = received ∧ st.world.incoming = rest ∧ st.bytesRead = 0 := by
  intro chunks
  induction chunks with
  | nil =>
    intro rest w buffer packets received fuel _ hw hf
    obtain ⟨f, rfl⟩ : ∃ f, fuel = f + 1 := ⟨fuel - 1, by simp at hf; omega⟩
    simp only [List.map_nil, List.nil_append] at hw
    simp [receiveLoop, recv, hw]
  | cons c chunks ih =>
    intro rest w buffer packets received fuel hc hw hf
    obtain ⟨f, rfl⟩ : ∃ f, fuel = f + 1 := ⟨fuel - 1, by simp at hf; omega⟩
    have hc0 := hc c (List.mem_cons_self _ _)
    have hrecv : recv w 17 = ((c.length : Int), c,
        { w with incoming := chunks.map RecvEvent.data ++ RecvEvent.closed :: rest }) := by
      unfold recv
      simp only [hw, List.map_cons, List.cons_append]
      rw [if_pos (by omega)]
    unfold receiveLoop
    simp only [hrecv]
    rw [if_pos (by omega), if_pos (by omega)]
    exact ih rest _ _ packets received f (fun d hd => hc d (List.mem_cons_of_mem _ hd)) rfl
      (by simp at hf; omega)

/-! ## What the resend loop sends -/

theorem send_sent (w : World) (payload : List Nat) :
    (send w payload).2.sent = w.sent ++ [payload] := by
  unfold send
  rcases hs : w.sendResults with _ | ⟨b, rest⟩
  · rfl
  · cases b <;> rfl

theorem recv_sent (w : World) (len : Nat) : (recv w len).2.2.sent = w.sent := by
  unfold recv
  rcases hi : w.incoming with _ | ⟨ev, rest⟩
  · rfl
  · cases ev with
    | data bytes => simp only; split <;> rfl
    | closed => rfl
    | error code => rfl

theorem afterResendRequest_sent (w : World) (seq : Int) :
    (afterResendRequest w seq).sent = w.sent ++ [resendPayload seq] := by
  unfold afterResendRequest
  split
  · simp [World.print, send_sent]
  · exact send_sent w _

theorem readResent_sent :
    ∀ (fuel : Nat) (w : World) (buffer : List Nat) (total : Nat)
      (r : World × List Nat × Nat), readResent fuel w buffer total = some r →
      r.1.sent = w.sent := by
  intro fuel
  induction fuel with
  | zero => intro w buffer total r h; simp [readResent] at h
  | succ fuel ih =>
    intro w buffer total r h
    unfold readResent at h
    split at h
    · simp only at h
      split at h
      · simp only [Option.some.injEq] at h
        subst h
        simp [World.print, recv_sent]
      · rw [ih _ _ _ _ h, recv_sent]
    · simp only [Option.some.injEq] at h
      subst h
      rfl

theorem requestMissingPackets_cons (w : World) (seq : Int) (rest : List Int) :
    requestMissingPackets w (seq :: rest)
      = match readResent 18 (afterResendRequest w seq) freshBuffer 0 with
        | none => none
        | some (w2, buffer, totalBytesRead) =>
          if totalBytesRead = 17 then
            requestMissingPackets
              (w2.print (Diag.receivedResent (decodeResent buffer).sequence)) rest
          else
            requestMissingPackets (w2.print Diag.resentIncomplete) rest := by
  rw [requestMissingPackets]
  rfl

theorem requestMissingPackets_sent :
    ∀ (missing : List Int) (w w1 : World), requestMissingPackets w missing = some w1 →
      w1.sent = w.sent ++ missing.map resendPayload := by
  intro missing
  induction missing with
  | nil =>
    intro w w1 h
    simp only [requestMissingPackets, Option.some.injEq] at h
    subst h
    simp
  | cons seq rest ih =>
    intro w w1 h
    rw [requestMissingPackets_cons] at h
    cases hr : readResent 18 (afterResendRequest w seq) freshBuffer 0 with
    | none => simp [hr] at h
    | some r =>
      obtain ⟨w2, buffer, total⟩ := r
      have hs := readResent_sent 18 _ _ _ _ hr
      simp only at hs
      simp only [hr] at h
      split at h
      · rw [ih _ _ h]
        simp [World.print, hs, afterResendRequest_sent]
      · rw [ih _ _ h]
        simp [World.print, hs, afterResendRequest_sent]

theorem mem_foldl_setInsert (xs : List Int) :
    ∀ (s : List Int) (k : Int),
      k ∈ xs.foldl (fun s x => setInsert x s) s ↔ k ∈ s ∨ k ∈ xs := by
  induction xs with
  | nil => intro s k; simp
  | cons x xs ih =>
    intro s k
    simp only [List.foldl_cons, ih, mem_setInsert, List.mem_cons]
    tauto

theorem pairwise_foldl_setInsert (xs : List Int) :
    ∀ (s : List Int), s.Pairwise (· < ·) →
      (xs.foldl (fun s x => setInsert x s) s).Pairwise (· < ·) := by
  induction xs with
  | nil => intro s hs; exact hs
  | cons x xs ih =>
    intro s hs
    exact ih _ (pairwise_setInsert x s hs)

theorem requestSequence_resendPayload (seq : Int) :
    requestSequence (resendPayload seq) = toUInt32 seq := by
  unfold requestSequence resendPayload htonl
  rw [hostStore32_byteSwap32]
  simp only [byteAt, List.getD_cons_succ, List.getD_cons_zero]
  rw [bigEndian32_bytes]
  exact Nat.mod_eq_of_lt (toUInt32_lt seq)

/-- On a received set that holds every number from 1 to the bound, the gap loop returns
the empty set, for every bound below `2^31 - 1`. -/
theorem gapLoop_complete (lastSeq : Int) (received : List Int) (h0 : 0 ≤ lastSeq)
    (hmax : lastSeq < 2 ^ 31 - 1) (hall : ∀ k, 1 ≤ k → k ≤ lastSeq → k ∈ received)
    (fuel : Nat) (hfuel : lastSeq.toNat < fuel) :
    gapLoop fuel 1 lastSeq received [] = some [] := by
  obtain ⟨r, hr, -, hm⟩ := gapLoop_correct lastSeq received h0 hmax fuel hfuel
  have : r = [] := by
    apply List.eq_nil_iff_forall_not_mem.mpr
    intro k hk
    obtain ⟨h1, h2, h3⟩ := (hm k).mp hk
    exact h3 (hall k h1 h2)
  rw [hr, this]

theorem mem_completeReceived (k : Int) :
    k ∈ completeReceived ↔ 1 ≤ k ∧ k ≤ 2147483647 := by
  unfold completeReceived
  simp only [List.mem_map, List.mem_range']
  constructor
  · rintro ⟨n, ⟨i, hi, rfl⟩, rfl⟩
    simp only [Int.ofNat_eq_coe]
    omega
  · rintro ⟨h1, h2⟩
    refine ⟨k.toNat, ⟨k.toNat - 1, by omega, by omega⟩, ?_⟩
    simp only [Int.ofNat_eq_coe]
    omega

/-! ## The shape of a run of `receiveData` -/

/-- A run of `receiveData` that ends is the streaming loop, the bound taken from the last
packet, the gap loop, and `requestMissingPackets` on the gap set (which does nothing on
an empty set); the collection is the one at the exit of the streaming loop. -/
theorem receiveData_done (fuel : Nat) (w w1 : World) (packets packets1 : List Packet)
    (h : receiveData fuel w packets = Outcome.done w1 packets1) :
    ∃ st lastSeq missing, receiveLoop fuel w freshBuffer packets [] = some st
      ∧ lastSequence st.packets = some lastSeq
      ∧ gapLoop fuel 1 lastSeq st.receivedSequences [] = some missing
      ∧ packets1 = st.packets
      ∧ requestMissingPackets (st.world.print (Diag.disconnected st.world.lastError)) missing = some w1 := by
  unfold receiveData at h
  cases hs : receiveLoop fuel w freshBuffer packets [] with
  | none => simp [hs] at h
  | some st =>
    obtain ⟨-, -, -, hb⟩ := receiveLoop_inv fuel w freshBuffer packets [] st hs
    simp only [hs, if_pos hb] at h
    cases hl : lastSequence st.packets with
    | none => simp [hl] at h
    | some lastSeq =>
      simp only [hl] at h
      cases hg : gapLoop fuel 1 lastSeq st.receivedSequences [] with
      | none => simp [hg] at h
      | some missing =>
        simp only [hg] at h
        refine ⟨st, lastSeq, missing, rfl, hl, hg, ?_⟩
        split at h
        · cases hq : requestMissingPackets (st.world.print (Diag.disconnected st.world.lastError)) missing with
          | none => simp [hq] at h
          | some w2 =>
            simp only [hq, Outcome.done.injEq] at h
            exact ⟨h.2.symm, by rw [h.1]⟩
        · rename_i hm
          simp only [ne_eq, not_not] at hm
          simp only [Outcome.done.injEq] at h
          subst hm
          exact ⟨h.2.symm, by rw [← h.1]; rfl⟩

/-- The converse: when the streaming loop, the bound and the gap loop have results,
`receiveData` ends, with the collection of the streaming loop. -/
theorem receiveData_of_parts (fuel : Nat) (w : World) (packets : List Packet)
    (st : StreamState) (lastSeq : Int) (missing : List Int)
    (hs : receiveLoop fuel w freshBuffer packets [] = some st)
    (hl : lastSequence st.packets = some lastSeq)
    (hg : gapLoop fuel 1 lastSeq st.receivedSequences [] = some missing) :
    ∃ w1, receiveData fuel w packets = Outcome.done w1 st.packets
      ∧ requestMissingPackets (st.world.print (Diag.disconnected st.world.lastError)) missing = some w1 := by
  obtain ⟨-, -, -, hb⟩ := receiveLoop_inv fuel w freshBuffer packets [] st hs
  obtain ⟨w1, hq⟩ := requestMissingPackets_returns missing (st.world.print (Diag.disconnected st.world.lastError))
  refine ⟨w1, ?_, hq⟩
  unfold receiveData
  simp only [hs, if_pos hb, hl, hg]
  by_cases hm : missing = []
  · subst hm
    simp only [requestMissingPackets, Option.some.injEq] at hq
    simp [hq]
  · simp [hm, hq]

theorem requestMissingPackets_append :
    ∀ (pre post : List Int) (w : World),
      requestMissingPackets w (pre ++ post)
        = (requestMissingPackets w pre).bind (fun wk => requestMissingPackets wk post) := by
  intro pre
  induction pre with
  | nil => intro post w; simp [requestMissingPackets]
  | cons seq rest ih =>
    intro post w
    rw [List.cons_append, requestMissingPackets_cons, requestMissingPackets_cons]
    cases hr : readResent 18 (afterResendRequest w seq) freshBuffer 0 with
    | none => rfl
    | some r =>
      obtain ⟨w2, buffer, total⟩ := r
      simp only
      split
      · exact ih _ _
      · exact ih _ _

theorem print_console (w : World) (d : Diag) : (w.print d).console = w.console ++ [d] := rfl

theorem recv_console (w : World) (len : Nat) : (recv w len).2.2.console = w.console := by
  unfold recv
  rcases hi : w.incoming with _ | ⟨ev, rest⟩
  · rfl
  · cases ev with
    | data bytes => simp only; split <;> rfl
    | closed => rfl
    | error code => rfl

theorem send_console (w : World) (payload : List Nat) :
    (send w payload).2.console = w.console := by
  unfold send
  rcases hs : w.sendResults with _ | ⟨b, rest⟩
  · rfl
  · cases b <;> rfl

/-- The console only grows in the read loop of the resend path. -/
theorem readResent_console :
    ∀ (fuel : Nat) (w : World) (buffer : List Nat) (total : Nat)
      (r : World × List Nat × Nat), readResent fuel w buffer total = some r →
      ∀ d ∈ w.console, d ∈ r.1.console := by
  intro fuel
  induction fuel with
  | zero => intro w buffer total r h; simp [readResent] at h
  | succ fuel ih =>
    intro w buffer total r h d hd
    unfold readResent at h
    split at h
    · simp only at h
      split at h
      · simp only [Option.some.injEq] at h
        subst h
        simp [World.print, recv_console, hd]
      · exact ih _ _ _ _ h d (by rw [recv_console]; exact hd)
    · simp only [Option.some.injEq] at h
      subst h
      exact hd

/-- The console only grows in `requestMissingPackets`. -/
theorem requestMissingPackets_console :
    ∀ (missing : List Int) (w w1 : World), requestMissingPackets w missing = some w1 →
      ∀ d ∈ w.console, d ∈ w1.console := by
  intro missing
  induction missing with
  | nil =>
    intro w w1 h d hd
    simp only [requestMissingPackets, Option.some.injEq] at h
    subst h
    exact hd
  | cons seq rest ih =>
    intro w w1 h d hd
    rw [requestMissingPackets_cons] at h
    cases hr : readResent 18 (afterResendRequest w seq) freshBuffer 0 with
    | none => simp [hr] at h
    | some r =>
      obtain ⟨w2, buffer, total⟩ := r
      have hc : d ∈ w2.console := by
        refine readResent_console 18 _ _ _ _ hr d ?_
        unfold afterResendRequest
        split
        · simp [World.print, send_console, hd]
        · rw [send_console]; exact hd
      simp only [hr] at h
      split at h
      · exact ih _ _ h d (by simp [World.print, hc])
      · exact ih _ _ h d (by simp [World.print, hc])

/-- The streaming loop only appends: started with `initial ++ packets` it ends with
`initial` in front of what it ends with when started with `packets`, everything else
being the same. -/
theorem receiveLoop_prefix (initial : List Packet) :
    ∀ (fuel : Nat) (w : World) (buffer : List Nat) (packets : List Packet)
      (received : List Int),
      receiveLoop fuel w buffer (initial ++ packets) received
        = (receiveLoop fuel w buffer packets received).map
            (fun st => { st with packets := initial ++ st.packets }) := by
  intro fuel
  induction fuel with
  | zero => intro w buffer packets received; rfl
  | succ fuel ih =>
    intro w buffer packets received
    unfold receiveLoop
    simp only
    split
    · split
      · exact ih _ _ _ _
      · rw [List.append_assoc]
        exact ih _ _ _ _
    · rfl

/-- Whatever the gap loop returns beyond the set it started with is absent from the
received set. -/
theorem gapLoop_sound (lastSeq : Int) (received : List Int) :
    ∀ (fuel : Nat) (i : Int) (missing r : List Int),
      gapLoop fuel i lastSeq received missing = some r →
      ∀ k ∈ r, k ∈ missing ∨ k ∉ received := by
  intro fuel
  induction fuel with
  | zero => intro i missing r h; simp [gapLoop] at h
  | succ fuel ih =>
    intro i missing r h k hk
    unfold gapLoop at h
    split at h
    · split at h
      · exact ih _ _ _ h k hk
      · rename_i hc
        rcases ih _ _ _ h k hk with hm | hn
        · rcases (mem_setInsert i k missing).mp hm with rfl | hm2
          · exact Or.inr (fun hin => hc ((setContains_iff received k).mpr hin))
          · exact Or.inl hm2
        · exact Or.inr hn
    · simp only [Option.some.injEq] at h
      subst h
      exact Or.inl hk

/-! ## A stream given by its reads -/

theorem byteAt_append_left (l r : List Nat) (i : Nat) (h : i < l.length) :
    byteAt (l ++ r) i = byteAt l i :=
  List.getD_append l r 0 i h

/-- A read of 17 bytes fills the whole buffer: the packet decoded from the buffer is the
packet of the bytes read, whatever the buffer held before. -/
theorem decodeStreamed_overwrite (buffer bytes : List Nat) (h : bytes.length = 17) :
    decodeStreamed (overwrite buffer 0 bytes) = decodeStreamed bytes := by
  have hb : ∀ i, i < 17 → byteAt (overwrite buffer 0 bytes) i = byteAt bytes i := by
    intro i hi
    unfold overwrite
    rw [List.take_zero, List.nil_append]
    exact byteAt_append_left _ _ _ (by omega)
  unfold decodeStreamed hostLoad32
  simp only [hb 0 (by omega), hb 1 (by omega), hb 2 (by omega), hb 3 (by omega),
    hb 4 (by omega), hb 5 (by omega), hb 6 (by omega), hb 7 (by omega), hb 8 (by omega),
    hb 9 (by omega), hb 10 (by omega), hb 11 (by omega), hb 12 (by omega), hb 13 (by omega),
    hb 14 (by omega), hb 15 (by omega), hb 16 (by omega)]

theorem recv_data_whole (w : World) (c : List Nat) (tail : List RecvEvent)
    (hw : w.incoming = RecvEvent.data c :: tail) (hc : c.length ≤ 17) :
    recv w 17 = ((c.length : Int), c, { w with incoming := tail }) := by
  unfold recv
  simp only [hw]
  rw [if_pos hc]

/-- The streaming loop on a stream given by its reads, each of 1 to 17 bytes, and then a
close: the reads of 17 bytes are decoded and stored in arrival order and their sequences
inserted, the shorter reads are reported and skipped. -/
theorem receiveLoop_reads :
    ∀ (reads : List (List Nat)) (rest : List RecvEvent) (w : World) (buffer : List Nat)
      (packets : List Packet) (received : List Int) (fuel : Nat),
      (∀ r ∈ reads, 0 < r.length ∧ r.length ≤ 17) →
      w.incoming = reads.map RecvEvent.data ++ RecvEvent.closed :: rest →
      reads.length < fuel →
      ∃ st, receiveLoop fuel w buffer packets received = some st
        ∧ st.packets = packets ++ (fullReads reads).map decodeStreamed
        ∧ st.receivedSequences = insertSequences received (fullReads reads)
        ∧ st.world.incoming = rest ∧ st.world.sent = w.sent
        ∧ st.world.sendResults = w.sendResults
        ∧ st.world.console
            = w.console ++ (shortReads reads).map (fun _ => Diag.incompletePacket)
        ∧ st.bytesRead = 0 := by
  intro reads
  induction reads with
  | nil =>
    intro rest w buffer packets received fuel _ hw hf
    obtain ⟨f, rfl⟩ : ∃ f, fuel = f + 1 := ⟨fuel - 1, by simp at hf; omega⟩
    simp only [List.map_nil, List.nil_append] at hw
    simp [receiveLoop, recv, hw, fullReads, shortReads, insertSequences]
  | cons c reads ih =>
    intro rest w buffer packets received fuel hc hw hf
    obtain ⟨f, rfl⟩ : ∃ f, fuel = f + 1 := ⟨fuel - 1, by simp at hf; omega⟩
    have hc0 := hc c (List.mem_cons_self _ _)
    have hrecv := recv_data_whole w c (reads.map RecvEvent.data ++ RecvEvent.closed :: rest)
      (by simpa using hw) hc0.2
    have hrest : ∀ r ∈ reads, 0 < r.length ∧ r.length ≤ 17 :=
      fun d hd => hc d (List.mem_cons_of_mem _ hd)
    have hf2 : reads.length < f := by simp at hf; omega
    unfold receiveLoop
    simp only [hrecv]
    rw [if_pos (by omega)]
    by_cases hshort : c.length < 17
    · rw [if_pos (by omega)]
      obtain ⟨st, hst, hp, hr, hi, hs, hsr, hcon, hb⟩ :=
        ih rest (({ w with incoming := reads.map RecvEvent.data ++ RecvEvent.closed :: rest } :
          World).print Diag.incompletePacket) (overwrite buffer 0 c) packets received f hrest rfl hf2
      refine ⟨st, hst, ?_, ?_, hi, hs, hsr, ?_, hb⟩
      · rw [hp]
        simp [fullReads, List.filter_cons, show c.length ≠ 17 by omega]
      · rw [hr]
        simp [fullReads, List.filter_cons, show c.length ≠ 17 by omega]
      · rw [hcon]
        simp [shortReads, List.filter_cons, hshort, World.print]
    · have hfull : c.length = 17 := by omega
      rw [if_neg (by omega), decodeStreamed_overwrite buffer c hfull]
      obtain ⟨st, hst, hp, hr, hi, hs, hsr, hcon, hb⟩ :=
        ih rest ({ w with incoming := reads.map RecvEvent.data ++ RecvEvent.closed :: rest } :
          World) (overwrite buffer 0 c) (packets ++ [decodeStreamed c])
          (setInsert (decodeStreamed c).sequence received) f hrest rfl hf2
      refine ⟨st, hst, ?_, ?_, hi, hs, hsr, ?_, hb⟩
      · rw [hp]
        simp [fullReads, List.filter_cons, hfull]
      · rw [hr]
        simp [fullReads, List.filter_cons, hfull, insertSequences]
      · rw [hcon]
        simp [shortReads, List.filter_cons, hfull]

theorem mem_insertSequences (frames : List (List Nat)) :
    ∀ (received : List Int) (k : Int),
      k ∈ insertSequences received frames
        ↔ k ∈ received ∨ ∃ f ∈ frames, (decodeStreamed f).sequence = k := by
  induction frames with
  | nil => intro received k; simp [insertSequences]
  | cons f frames ih =>
    intro received k
    have h := ih (setInsert (decodeStreamed f).sequence received) k
    unfold insertSequences at h ⊢
    rw [List.foldl_cons, h, mem_setInsert]
    simp only [List.mem_cons, exists_eq_or_imp]
    constructor
    · rintro ((h1 | h1) | h1)
      · exact Or.inr (Or.inl h1.symm)
      · exact Or.inl h1
      · exact Or.inr (Or.inr h1)
    · rintro (h1 | h1 | h1)
      · exact Or.inl (Or.inr h1)
      · exact Or.inl (Or.inl h1.symm)
      · exact Or.inr h1

theorem fullReads_of_full (frames : List (List Nat)) (h : ∀ f ∈ frames, f.length = 17) :
    fullReads frames = frames := by
  unfold fullReads
  exact List.filter_eq_self.mpr (fun f hf => by simp [h f hf])

theorem fullReads_append_short (reads : List (List Nat)) (c : List Nat) (hc : c.length < 17) :
    fullReads (reads ++ [c]) = fullReads reads := by
  unfold fullReads
  rw [List.filter_append]
  simp [List.filter_cons, show c.length ≠ 17 by omega]

/-! ## A read error and a close -/

theorem map_errorAsClosed_idem (events : List RecvEvent) :
    (events.map RecvEvent.errorAsClosed).map RecvEvent.errorAsClosed
      = events.map RecvEvent.errorAsClosed := by
  rw [List.map_map]
  refine List.map_congr_left (fun e _ => ?_)
  cases e <;> rfl

theorem withoutErrors_errorsAsClosed (w : World) :
    w.errorsAsClosed.withoutErrors = w.withoutErrors := by
  simp only [World.withoutErrors, World.errorsAsClosed, map_errorAsClosed_idem]

theorem recv_withoutErrors (w : World) (len : Nat) :
    recv w.withoutErrors len
      = ((if (recv w len).1 < 0 then 0 else (recv w len).1), (recv w len).2.1,
          (recv w len).2.2.withoutErrors) := by
  obtain ⟨incoming, sendResults, sent, console, lastError⟩ := w
  rcases incoming with _ | ⟨ev, rest⟩
  · simp [recv, World.withoutErrors]
  · cases ev with
    | data bytes =>
      have h1 : ¬ ((bytes.length : Int) < 0) := by omega
      have h2 : ¬ ((len : Int) < 0) := by omega
      by_cases hl : bytes.length ≤ len
      · simp [recv, World.withoutErrors, RecvEvent.errorAsClosed, hl, h1]
      · simp [recv, World.withoutErrors, RecvEvent.errorAsClosed, hl, h2]
    | closed => simp [recv, World.withoutErrors, RecvEvent.errorAsClosed]
    | error code => simp [recv, World.withoutErrors, RecvEvent.errorAsClosed]

theorem print_withoutErrors (w : World) (d : Diag) :
    (w.print d).withoutErrors = w.withoutErrors.print d.withoutErrorCode := by
  simp [World.print, World.withoutErrors]

theorem lastError_withoutErrors (w : World) : w.withoutErrors.lastError = 0 := rfl

theorem afterResendRequest_withoutErrors (w : World) (seq : Int) :
    afterResendRequest w.withoutErrors seq = (afterResendRequest w seq).withoutErrors := by
  obtain ⟨incoming, sendResults, sent, console, lastError⟩ := w
  have h : ¬ (((resendPayload seq).length : Int) < 0) := by omega
  rcases sendResults with _ | ⟨b, rest⟩
  · simp [afterResendRequest, send, World.withoutErrors, h]
  · cases b
    · simp [afterResendRequest, send, World.withoutErrors, h]
    · simp [afterResendRequest, send, World.withoutErrors, World.print, Diag.withoutErrorCode]

theorem readResent_withoutErrors :
    ∀ (fuel : Nat) (w : World) (buffer : List Nat) (total : Nat),
      readResent fuel w.withoutErrors buffer total
        = (readResent fuel w buffer total).map (fun r => (r.1.withoutErrors, r.2)) := by
  intro fuel
  induction fuel with
  | zero => intro w buffer total; rfl
  | succ fuel ih =>
    intro w buffer total
    unfold readResent
    by_cases ht : total < 17
    · simp only [if_pos ht, recv_withoutErrors]
      by_cases h0 : (recv w (17 - total)).1 ≤ 0
      · rw [if_pos h0, if_pos (by split <;> omega)]
        simp only [Option.map_some', print_withoutErrors]
        rfl
      · rw [if_neg h0, if_neg (by split <;> omega), if_neg (by omega)]
        exact ih _ _ _
    · simp only [if_neg ht]
      rfl

theorem requestMissingPackets_withoutErrors :
    ∀ (missing : List Int) (w : World),
      requestMissingPackets w.withoutErrors missing
        = (requestMissingPackets w missing).map World.withoutErrors := by
  intro missing
  induction missing with
  | nil => intro w; simp [requestMissingPackets]
  | cons seq rest ih =>
    intro w
    rw [requestMissingPackets_cons, requestMissingPackets_cons,
      afterResendRequest_withoutErrors, readResent_withoutErrors]
    cases hr : readResent 18 (afterResendRequest w seq) freshBuffer 0 with
    | none => rfl
    | some r =>
      obtain ⟨w2, buffer, total⟩ := r
      simp only [Option.map_some']
      split
      · rw [← ih, print_withoutErrors]
        rfl
      · rw [← ih, print_withoutErrors]
        rfl

theorem receiveLoop_withoutErrors :
    ∀ (fuel : Nat) (w : World) (buffer : List Nat) (packets : List Packet)
      (received : List Int),
      receiveLoop fuel w.withoutErrors buffer packets received
        = (receiveLoop fuel w buffer packets received).map
            (fun st => { st with world := st.world.withoutErrors,
                                 bytesRead := if st.bytesRead < 0 then 0 else st.bytesRead }) := by
  intro fuel
  induction fuel with
  | zero => intro w buffer packets received; rfl
  | succ fuel ih =>
    intro w buffer packets received
    unfold receiveLoop
    simp only [recv_withoutErrors]
    by_cases h0 : (recv w 17).1 > 0
    · have he : (if (recv w 17).1 < 0 then 0 else (recv w 17).1) = (recv w 17).1 := by
        rw [if_neg (by omega)]
      rw [he]
      simp only [if_pos h0]
      by_cases h17 : (recv w 17).1 < 17
      · simp only [if_pos h17]
        rw [← ih, print_withoutErrors]
        rfl
      · simp only [if_neg h17]
        exact ih _ _ _ _
    · have hn : ¬ ((if (recv w 17).1 < 0 then 0 else (recv w 17).1) > 0) := by
        split <;> omega
      simp only [if_neg hn, if_neg h0]
      rfl

/-- The run of `receiveData` tells a read error from a close only by the error codes: on
the socket with the errors read as closes and the error codes left out, it ends in the
same way, with the same collection, the same payloads handed to `send`, and the same
console up to the error code of the disconnect line. -/
theorem receiveData_withoutErrors (fuel : Nat) (w : World) (packets : List Packet) :
    receiveData fuel w.withoutErrors packets
      = (receiveData fuel w packets).withoutErrors := by
  unfold receiveData
  rw [receiveLoop_withoutErrors]
  cases hs : receiveLoop fuel w freshBuffer packets [] with
  | none => rfl
  | some st =>
    obtain ⟨-, -, -, hb⟩ := receiveLoop_inv fuel w freshBuffer packets [] st hs
    simp only [Option.map_some', if_pos hb]
    rw [if_pos (by split <;> omega)]
    cases hl : lastSequence st.packets with
    | none => rfl
    | some lastSeq =>
      simp only
      cases hg : gapLoop fuel 1 lastSeq st.receivedSequences [] with
      | none => rfl
      | some missing =>
        simp only
        have hp : st.world.withoutErrors.print (Diag.disconnected st.world.withoutErrors.lastError)
            = (st.world.print (Diag.disconnected st.world.lastError)).withoutErrors := by
          rw [print_withoutErrors]
          rfl
        rw [hp, requestMissingPackets_withoutErrors]
        by_cases hm : missing = []
        · simp [hm, Outcome.withoutErrors]
        · simp only [ne_eq, hm, not_false_eq_true, if_true]
          cases hq : requestMissingPackets
              (st.world.print (Diag.disconnected st.world.lastError)) missing with
          | none => rfl
          | some w2 => rfl

/-! ## The claims -/

/-- C9: the request of `streamAllPackets` is the two bytes `[1, 0]`, whatever the state
of the socket: the one payload handed to `send` is `[1, 0]`. -/
theorem streamAllPackets_sends_one_zero (w : World) :
    (streamAllPackets w).sent = w.sent ++ [[1, 0]] := by
  unfold streamAllPackets send
  rcases h : w.sendResults with _ | ⟨b, rest⟩
  · simp [World.print]
  · cases b <;> simp [World.print]

/-- C8: for a sequence number `seq >= 1` (an `int`), the resend payload is five bytes,
the byte 2 and then the four bytes of `seq`, most significant first, and this is what
`send` is handed. -/
theorem resendPayload_bigEndian (seq : Int) (h1 : 1 ≤ seq) (h2 : seq < 2 ^ 31) (w : World) :
    resendPayload seq
        = [2, seq.toNat / 2 ^ 24 % 256, seq.toNat / 2 ^ 16 % 256, seq.toNat / 2 ^ 8 % 256,
            seq.toNat % 256]
      ∧ (resendPayload seq).length = 5
      ∧ (send w (resendPayload seq)).2.sent = w.sent ++ [resendPayload seq] := by
  have h : toUInt32 seq = seq.toNat := by unfold toUInt32; omega
  have hp : resendPayload seq
      = [2, seq.toNat / 2 ^ 24 % 256, seq.toNat / 2 ^ 16 % 256, seq.toNat / 2 ^ 8 % 256,
          seq.toNat % 256] := by
    unfold resendPayload htonl
    rw [h, hostStore32_byteSwap32]
  refine ⟨hp, by rw [hp]; rfl, ?_⟩
  unfold send
  rcases hs : w.sendResults with _ | ⟨b, rest⟩
  · rfl
  · cases b <;> rfl

/-- Witness of C8 at the sequence number `0x01020304`. -/
theorem resendPayload_bigEndian_witness :
    (1 : Int) ≤ 16909060 ∧ (16909060 : Int) < 2 ^ 31
      ∧ resendPayload 16909060 = [2, 1, 2, 3, 4] := by
  exact ⟨by decide, by decide,
    (resendPayload_bigEndian 16909060 (by decide) (by decide) emptySession).1.trans (by decide)⟩

/-- C6, as the claim states it, fails for the sequence: on the frame with the sequence
bytes `80 00 00 00`, whose big-endian 32-bit integer is `2^31`, the decoded sequence is
`-2^31`. -/
theorem decodeStreamed_sequence_not_unsigned :
    signBitFrame.length = 17 ∧ (∀ b ∈ signBitFrame, b < 256)
      ∧ bigEndian32 (byteAt signBitFrame 13) (byteAt signBitFrame 14) (byteAt signBitFrame 15)
          (byteAt signBitFrame 16) = 2147483648
      ∧ (decodeStreamed signBitFrame).sequence = -2147483648
      ∧ (decodeStreamed signBitFrame).sequence
          ≠ ((bigEndian32 (byteAt signBitFrame 13) (byteAt signBitFrame 14)
              (byteAt signBitFrame 15) (byteAt signBitFrame 16) : Nat) : Int) := by
  decide

/-- C6, amended: for a buffer of 17 bytes, the decoding in `receiveData` yields the symbol
bytes `[0:4)` (and the terminator), the side byte `[4]`, and quantity, price and sequence
as the signed reading of the big-endian words at `[5:9)`, `[9:13)` and `[13:17)`; the
sequence is the big-endian 32-bit integer of its bytes when that is below `2^31`, and
that integer minus `2^32` otherwise. -/
theorem decodeStreamed_fields (buffer : List Nat) (hlen : buffer.length = 17)
    (hb : ∀ b ∈ buffer, b < 256) :
    (decodeStreamed buffer).symbol = buffer.take 4 ++ [0]
      ∧ (decodeStreamed buffer).buySellIndicator = byteAt buffer 4
      ∧ (decodeStreamed buffer).quantity
          = signedBigEndian32 (byteAt buffer 5) (byteAt buffer 6) (byteAt buffer 7)
              (byteAt buffer 8)
      ∧ (decodeStreamed buffer).price
          = signedBigEndian32 (byteAt buffer 9) (byteAt buffer 10) (byteAt buffer 11)
              (byteAt buffer 12)
      ∧ (decodeStreamed buffer).sequence
          = signedBigEndian32 (byteAt buffer 13) (byteAt buffer 14) (byteAt buffer 15)
              (byteAt buffer 16)
      ∧ (decodeStreamed buffer).sequence
          = (if bigEndian32 (byteAt buffer 13) (byteAt buffer 14) (byteAt buffer 15)
                (byteAt buffer 16) < 2 ^ 31
             then ((bigEndian32 (byteAt buffer 13) (byteAt buffer 14) (byteAt buffer 15)
                (byteAt buffer 16) : Nat) : Int)
             else ((bigEndian32 (byteAt buffer 13) (byteAt buffer 14) (byteAt buffer 15)
                (byteAt buffer 16) : Nat) : Int) - 2 ^ 32) := by
  refine ⟨?_, rfl, decodeWord buffer hb 5, decodeWord buffer hb 9, decodeWord buffer hb 13,
    decodeWord buffer hb 13⟩
  rw [take_four buffer (by omega)]
  rfl

/-- Witness of the amended C6 at a frame with a zero symbol byte, a negative quantity and
the sign bit of the sequence set. -/
theorem decodeStreamed_fields_witness :
    signBitFrame.length = 17 ∧ (∀ b ∈ signBitFrame, b < 256)
      ∧ (decodeStreamed signBitFrame).symbol = [65, 0, 67, 68, 0]
      ∧ (decodeStreamed signBitFrame).quantity = -5
      ∧ (decodeStreamed signBitFrame).sequence = -2147483648 :=
  ⟨by decide, by decide,
    (decodeStreamed_fields signBitFrame (by decide) (by decide)).1,
    (decodeStreamed_fields signBitFrame (by decide) (by decide)).2.2.1.trans (by decide),
    (decodeStreamed_fields signBitFrame (by decide) (by decide)).2.2.2.2.2.trans (by decide)⟩

/-- C7, as the claim states it, fails: the valid packet with sequence `2^31` is decoded
from its frame with sequence `-2^31`. -/
theorem highSequencePacket_roundtrip_fails :
    ValidPacket highSequencePacket
      ∧ (decodeStreamed (encodeResponseFrame highSequencePacket)).sequence = -2147483648
      ∧ decodeStreamed (encodeResponseFrame highSequencePacket) ≠ highSequencePacket := by
  decide

/-- C7, amended: decoding the frame of a valid packet gives the packet back, with the
sequence read as an `int`: the sequence itself below `2^31`, the sequence minus `2^32`
from `2^31` on. -/
theorem decodeStreamed_encodeResponseFrame (p : Packet) (hp : ValidPacket p) :
    decodeStreamed (encodeResponseFrame p)
      = { p with sequence := if p.sequence < 2 ^ 31 then p.sequence else p.sequence - 2 ^ 32 } := by
  obtain ⟨symbol, side, quantity, price, sequence⟩ := p
  obtain ⟨hlen, -, hterm, -, ⟨hq1, hq2⟩, ⟨hp1, hp2⟩, hs1, hs2⟩ := hp
  simp only at hlen hterm hq1 hq2 hp1 hp2 hs1 hs2
  rcases symbol with _ | ⟨a, _ | ⟨b, _ | ⟨c, _ | ⟨d, _ | ⟨e, _ | ⟨f, rest⟩⟩⟩⟩⟩⟩ <;>
    simp at hlen
  simp [byteAt] at hterm
  subst hterm
  have hq := decode_encode_word (toUInt32 quantity)
    (encodeResponseFrame ⟨[a, b, c, d, 0], side, quantity, price, sequence⟩) 5
    (by simp [encodeResponseFrame, hostStore32, byteAt])
    (by simp [encodeResponseFrame, hostStore32, byteAt])
    (by simp [encodeResponseFrame, hostStore32, byteAt])
    (by simp [encodeResponseFrame, hostStore32, byteAt])
  have hpr := decode_encode_word (toUInt32 price)
    (encodeResponseFrame ⟨[a, b, c, d, 0], side, quantity, price, sequence⟩) 9
    (by simp [encodeResponseFrame, hostStore32, byteAt])
    (by simp [encodeResponseFrame, hostStore32, byteAt])
    (by simp [encodeResponseFrame, hostStore32, byteAt])
    (by simp [encodeResponseFrame, hostStore32, byteAt])
  have hsq := decode_encode_word (toUInt32 sequence)
    (encodeResponseFrame ⟨[a, b, c, d, 0], side, quantity, price, sequence⟩) 13
    (by simp [encodeResponseFrame, hostStore32, byteAt])
    (by simp [encodeResponseFrame, hostStore32, byteAt])
    (by simp [encodeResponseFrame, hostStore32, byteAt])
    (by simp [encodeResponseFrame, hostStore32, byteAt])
  have hmod : ∀ i : Int, toUInt32 i % 2 ^ 32 = toUInt32 i := fun i =>
    Nat.mod_eq_of_lt (toUInt32_lt i)
  have hseq : toInt32 (toUInt32 sequence)
      = if sequence < 2 ^ 31 then sequence else sequence - 2 ^ 32 := by
    unfold toInt32 toUInt32
    split <;> split <;> omega
  unfold decodeStreamed
  rw [hq, hpr, hsq, hmod, hmod, hmod, toInt32_toUInt32 _ hq1 hq2, toInt32_toUInt32 _ hp1 hp2,
    hseq]
  simp [encodeResponseFrame, byteAt]

/-- Witness of the amended C7 at a packet with a zero symbol byte, a negative quantity
and the sequence `2^31 - 1`. -/
theorem decodeStreamed_encodeResponseFrame_witness :
    ValidPacket samplePacket
      ∧ decodeStreamed (encodeResponseFrame samplePacket) = samplePacket :=
  ⟨by decide, (decodeStreamed_encodeResponseFrame samplePacket (by decide)).trans (by decide)⟩

/-- C10 fails at the upper bound `2^31 - 1`, which a frame with sequence bytes
`7F FF FF FF` produces: the test `i <= lastSequence` holds for every `int`, so the loop
yields no gap set, whatever the fuel and the received set. -/
theorem gapLoop_never_returns_at_intMax (fuel : Nat) (receivedSequences : List Int) :
    gapLoop fuel 1 2147483647 receivedSequences [] = none :=
  gapLoop_intMax receivedSequences fuel 1 [] (by decide)

/-- C2, as the claim states it, fails: when the frame 5 is followed by the frame 2 the
upper bound is 2, the gap set is `{1}`, and 5 is in the union without being in `{1..2}`. -/
theorem unorderedSession_union_not_range :
    ∃ st missing, receiveLoop 3 unorderedSession freshBuffer [] [] = some st
      ∧ st.packets ≠ [] ∧ lastSequence st.packets = some 2
      ∧ gapLoop 3 1 2 st.receivedSequences [] = some missing
      ∧ ¬ (∀ k, (k ∈ missing ∨ k ∈ st.receivedSequences) ↔ (1 ≤ k ∧ k ≤ 2)) := by
  refine ⟨⟨worldOf [], sampleFrame 2, [decodeStreamed (sampleFrame 5),
    decodeStreamed (sampleFrame 2)], [2, 5], 0⟩, [1], by decide, by decide, by decide,
    by decide, fun h => ?_⟩
  have h5 := (h 5).mp (Or.inr (by decide))
  omega

/-- C2, amended: for the packets decoded during streaming, with upper bound the sequence
of the last packet of the collection and that bound below `2^31 - 1`, the gap loop
returns a set disjoint from the received set, which holds the bound itself; the union of the two is the received set
together with `{1..max}`, and it is exactly `{1..max}` when every decoded sequence lies
in `1..max`. -/
theorem missing_received_partition (fuel : Nat) (w : World) (st : StreamState) (lastSeq : Int)
    (hstream : receiveLoop fuel w freshBuffer [] [] = some st)
    (hlast : lastSequence st.packets = some lastSeq) (hmax : lastSeq < 2 ^ 31 - 1)
    (gapFuel : Nat) (hfuel : lastSeq.toNat < gapFuel) :
    ∃ missing, gapLoop gapFuel 1 lastSeq st.receivedSequences [] = some missing
      ∧ lastSeq ∈ st.receivedSequences
      ∧ (∀ k, k ∈ missing → k ∉ st.receivedSequences)
      ∧ (∀ k, (k ∈ missing ∨ k ∈ st.receivedSequences)
          ↔ ((1 ≤ k ∧ k ≤ lastSeq) ∨ k ∈ st.packets.map (fun p => p.sequence)))
      ∧ ((∀ p ∈ st.packets, 1 ≤ p.sequence ∧ p.sequence ≤ lastSeq) →
          ∀ k, (k ∈ missing ∨ k ∈ st.receivedSequences) ↔ (1 ≤ k ∧ k ≤ lastSeq)) := by
  obtain ⟨new, hpk, hrecv, -⟩ := receiveLoop_inv fuel w freshBuffer [] [] st hstream
  simp only [List.nil_append] at hpk
  have hrecv2 : ∀ k, k ∈ st.receivedSequences ↔ k ∈ st.packets.map (fun p => p.sequence) := by
    intro k
    rw [hrecv k, hpk]
    simp
  have key : ∃ missing, gapLoop gapFuel 1 lastSeq st.receivedSequences [] = some missing
      ∧ ∀ k, k ∈ missing ↔ (1 ≤ k ∧ k ≤ lastSeq ∧ k ∉ st.receivedSequences) := by
    by_cases h0 : 0 ≤ lastSeq
    · obtain ⟨r, hr, -, hm⟩ := gapLoop_correct lastSeq st.receivedSequences h0 hmax gapFuel hfuel
      exact ⟨r, hr, hm⟩
    · obtain ⟨g, rfl⟩ : ∃ g, gapFuel = g + 1 := ⟨gapFuel - 1, by omega⟩
      refine ⟨[], gapLoop_below_one lastSeq st.receivedSequences (by omega) g, fun k => ?_⟩
      constructor
      · intro hk
        simp at hk
      · rintro ⟨h1, h2, -⟩
        omega
  obtain ⟨missing, hgap, hm⟩ := key
  refine ⟨missing, hgap, (hrecv2 lastSeq).mpr (lastSequence_mem st.packets lastSeq hlast),
    fun k hk => ((hm k).mp hk).2.2, fun k => ?_, fun hrange k => ?_⟩
  · rw [hm k, ← hrecv2 k]
    by_cases hk : k ∈ st.receivedSequences <;> simp [hk]
  · rw [hm k]
    constructor
    · rintro (⟨h1, h2, -⟩ | hk)
      · exact ⟨h1, h2⟩
      · obtain ⟨p, hp, rfl⟩ := List.mem_map.mp ((hrecv2 k).mp hk)
        exact hrange p hp
    · rintro ⟨h1, h2⟩
      by_cases hk : k ∈ st.receivedSequences
      · exact Or.inr hk
      · exact Or.inl ⟨h1, h2, hk⟩

/-- Witness of the amended C2 at the stream of the frames 1, 2 and 4. -/
theorem missing_received_partition_witness :
    receiveLoop 10 gapSession freshBuffer [] [] = some gapSessionState
      ∧ lastSequence gapSessionState.packets = some 4
      ∧ ∃ missing, gapLoop 10 1 4 gapSessionState.receivedSequences [] = some missing
        ∧ (4 : Int) ∈ gapSessionState.receivedSequences
        ∧ (∀ k, k ∈ missing → k ∉ gapSessionState.receivedSequences)
        ∧ (∀ k, (k ∈ missing ∨ k ∈ gapSessionState.receivedSequences)
            ↔ ((1 ≤ k ∧ k ≤ 4) ∨ k ∈ gapSessionState.packets.map (fun p => p.sequence)))
        ∧ ((∀ p ∈ gapSessionState.packets, 1 ≤ p.sequence ∧ p.sequence ≤ 4) →
            ∀ k, (k ∈ missing ∨ k ∈ gapSessionState.receivedSequences) ↔ (1 ≤ k ∧ k ≤ 4)) :=
  ⟨by decide, by decide,
    missing_received_partition 10 gapSession gapSessionState 4 (by decide) (by decide)
      (by decide) 10 (by decide)⟩

/-- C3, as the claim states it, fails: when the frame 3 is followed by the frame 1 the
upper bound is 1, below the sequence 3 of a decoded packet; and for an empty collection
`packets.back()` has no value, so the bound is not 0. -/
theorem descendingSession_bound_not_maximum :
    ∃ st, receiveLoop 3 descendingSession freshBuffer [] [] = some st
      ∧ st.packets.map (fun p => p.sequence) = [3, 1]
      ∧ lastSequence st.packets = some 1
      ∧ lastSequence [] = none :=
  ⟨⟨worldOf [], sampleFrame 1, [decodeStreamed (sampleFrame 3),
    decodeStreamed (sampleFrame 1)], [1, 3], 0⟩, by decide, by decide, by decide, by decide⟩

/-- C3, amended: for a non-empty collection the upper bound of the gap computation is the
sequence number of the last packet of the collection; it is the maximum of the sequence
numbers when they are in ascending order. -/
theorem lastSequence_is_last_packet (packets : List Packet) (hne : packets ≠ []) :
    ∃ front p, packets = front ++ [p] ∧ lastSequence packets = some p.sequence
      ∧ ((packets.map (fun q => q.sequence)).Pairwise (· ≤ ·) →
          ∀ q ∈ packets, q.sequence ≤ p.sequence) := by
  obtain ⟨front, p, rfl⟩ : ∃ front p, packets = front ++ [p] :=
    ⟨packets.dropLast, packets.getLast hne, (List.dropLast_append_getLast hne).symm⟩
  refine ⟨front, p, rfl, lastSequence_append_singleton front p, fun hs q hq => ?_⟩
  rw [List.map_append, List.pairwise_append] at hs
  rcases List.mem_append.mp hq with h | h
  · exact hs.2.2 q.sequence (List.mem_map.mpr ⟨q, h, rfl⟩) p.sequence (by simp)
  · simp at h
    rw [h]

/-- Witness of the amended C3 at the three packets of the frames 1, 2 and 4. -/
theorem lastSequence_is_last_packet_witness :
    gapSessionState.packets ≠ []
      ∧ ∃ front p, gapSessionState.packets = front ++ [p]
        ∧ lastSequence gapSessionState.packets = some p.sequence
        ∧ ((gapSessionState.packets.map (fun q => q.sequence)).Pairwise (· ≤ ·) →
            ∀ q ∈ gapSessionState.packets, q.sequence ≤ p.sequence) :=
  ⟨by decide, lastSequence_is_last_packet gapSessionState.packets (by decide)⟩

/-- C1 fails on the scenario of the claim: after the frames 1, 2 and 4, a close, and the
frame 3 as the answer to the one resend request `[2, 0, 0, 0, 3]`, the resent packet is
decoded and printed, and the collection still holds the sequences 1, 2 and 4 only. -/
theorem resent_packet_not_stored :
    ∃ packets, receiveData 10 gapSession []
        = Outcome.done
            { incoming := [], sendResults := [], sent := [[2, 0, 0, 0, 3]],
              console := [Diag.disconnected 0, Diag.receivedResent 3], lastError := 0 } packets
      ∧ packets.map (fun p => p.sequence) = [1, 2, 4] :=
  ⟨[decodeStreamed (sampleFrame 1), decodeStreamed (sampleFrame 2),
    decodeStreamed (sampleFrame 4)], by decide, by decide⟩

/-- C4 fails: on a stream that closes before any frame, `receiveData` evaluates
`packets.back()` on the empty collection. -/
theorem receiveData_emptySession_undefined (fuel : Nat) :
    receiveData (fuel + 1) emptySession [] = Outcome.undefinedBehaviour := by
  simp [receiveData, receiveLoop, recv, emptySession, worldOf, lastSequence]

/-- C5 fails: a frame that arrives in a read of 10 bytes and a read of 7 bytes is stored
by the streaming loop as no packet, where the same frame in one read is stored as one;
the read loop of `requestMissingPackets` does put the two reads together. -/
theorem split_frame_not_stored :
    (receiveLoop 10 splitSession freshBuffer [] []).map (fun st => st.packets) = some []
      ∧ (receiveLoop 10 wholeSession freshBuffer [] []).map (fun st => st.packets)
          = some [decodeStreamed (sampleFrame 1)]
      ∧ (readResent 18 splitSession freshBuffer 0).map (fun r => r.2)
          = some (sampleFrame 1, 17) := by
  decide

/-- C20: the decoding of the resend path and the decoding of the streaming path give the
same packet, field by field, for every buffer (so for every buffer of 17 bytes). -/
theorem decodeResent_eq_decodeStreamed (buffer : List Nat) :
    decodeResent buffer = decodeStreamed buffer
      ∧ (decodeResent buffer).symbol = (decodeStreamed buffer).symbol
      ∧ (decodeResent buffer).buySellIndicator = (decodeStreamed buffer).buySellIndicator
      ∧ (decodeResent buffer).quantity = (decodeStreamed buffer).quantity
      ∧ (decodeResent buffer).price = (decodeStreamed buffer).price
      ∧ (decodeResent buffer).sequence = (decodeStreamed buffer).sequence :=
  ⟨rfl, rfl, rfl, rfl, rfl, rfl⟩

/-- C11: for a gap set filled in any order from any list `xs`, `requestMissingPackets`
returns, and the payloads it hands to `send` are the resend payloads of the entries of
the set, one per entry, in ascending order of sequence number; a payload carries the
sequence number of its entry. -/
theorem requestMissingPackets_sends_each_once (xs : List Int) (w : World) :
    ∃ w1, requestMissingPackets w (setOfList xs) = some w1
      ∧ w1.sent = w.sent ++ (setOfList xs).map resendPayload
      ∧ (setOfList xs).Pairwise (· < ·)
      ∧ (∀ k, k ∈ setOfList xs ↔ k ∈ xs)
      ∧ ((w1.sent.drop w.sent.length).map requestSequence = (setOfList xs).map toUInt32) := by
  obtain ⟨w1, h⟩ := requestMissingPackets_returns (setOfList xs) w
  have hs := requestMissingPackets_sent _ _ _ h
  refine ⟨w1, h, hs, pairwise_foldl_setInsert xs [] List.Pairwise.nil, fun k => ?_, ?_⟩
  · unfold setOfList
    rw [mem_foldl_setInsert]
    simp
  · rw [hs, List.drop_left, List.map_map]
    exact List.map_congr_left (fun k _ => requestSequence_resendPayload k)

/-- C18 fails at the upper bound `2^31 - 1`: on the received set that holds every number
from 1 to `2^31 - 1` the gap loop does not return, so it yields no empty gap set. -/
theorem gapLoop_completeReceived_never_returns :
    (∀ k, k ∈ completeReceived ↔ 1 ≤ k ∧ k ≤ 2147483647)
      ∧ ∀ fuel, gapLoop fuel 1 2147483647 completeReceived [] = none :=
  ⟨mem_completeReceived, fun fuel => gapLoop_intMax completeReceived fuel 1 [] (by decide)⟩

/-- C19 fails at the last sequence `2^31 - 1`: the counter wraps from `2^31 - 1` to
`-2^31`, the test `i <= lastSequence` holds for every value of a 32-bit counter, and the
loop does not return from any of them, whatever the fuel; for a last sequence of 0 or
below it returns at once without an iteration. -/
theorem gapLoop_diverges_at_intMax :
    incInt32 2147483647 = -2147483648
      ∧ (∀ (fuel x : Nat) (received missing : List Int),
          gapLoop fuel (toInt32 x) 2147483647 received missing = none)
      ∧ (∀ (fuel : Nat) (lastSeq : Int) (received : List Int),
          gapLoop (fuel + 1) 1 (min lastSeq 0) received [] = some []) :=
  ⟨by decide,
    fun fuel x received missing =>
      gapLoop_intMax received fuel (toInt32 x) missing (toInt32_range x).2,
    fun fuel lastSeq received => gapLoop_below_one (min lastSeq 0) received (by omega) fuel⟩

/-- C17: for every initial collection and every behaviour of the socket, the collection
that `receiveData` ends with is the initial collection followed by the packets the
streaming loop decodes (the same packets, in the same order, as from an empty initial
collection), and it is the collection at the exit of the streaming loop: the resend
phase changes nothing in it. On a stream given by its reads, the packets added are those
of the reads of 17 bytes, in arrival order. -/
theorem collection_insertion_only (fuel : Nat) (w w1 : World) (packets packets1 : List Packet)
    (h : receiveData fuel w packets = Outcome.done w1 packets1) :
    ∃ st0 st, receiveLoop fuel w freshBuffer [] [] = some st0
      ∧ receiveLoop fuel w freshBuffer packets [] = some st
      ∧ st.packets = packets ++ st0.packets
      ∧ packets1 = packets ++ st0.packets
      ∧ packets1 = st.packets
      ∧ ∀ (reads : List (List Nat)) (rest : List RecvEvent),
          (∀ r ∈ reads, 0 < r.length ∧ r.length ≤ 17) →
          w.incoming = reads.map RecvEvent.data ++ RecvEvent.closed :: rest →
          reads.length < fuel →
          packets1 = packets ++ (fullReads reads).map decodeStreamed := by
  obtain ⟨st, -, -, hs, -, -, hp, -⟩ := receiveData_done fuel w w1 packets packets1 h
  have hpre := receiveLoop_prefix packets fuel w freshBuffer [] []
  rw [List.append_nil, hs] at hpre
  cases h0 : receiveLoop fuel w freshBuffer [] [] with
  | none => simp [h0] at hpre
  | some st0 =>
    simp only [h0, Option.map_some', Option.some.injEq] at hpre
    have hst : st.packets = packets ++ st0.packets := by rw [hpre]
    refine ⟨st0, st, rfl, hs, hst, by rw [hp, hst], hp, fun reads rest hreads hw hfuel => ?_⟩
    obtain ⟨st2, hst2, hp2, -⟩ := receiveLoop_reads reads rest w freshBuffer packets [] fuel
      hreads hw hfuel
    rw [hs, Option.some.injEq] at hst2
    rw [hp, hst2, hp2]

/-- Witness of C17 at the session of the frames 1, 2 and 4 with one packet in the
collection beforehand. -/
theorem collection_insertion_only_witness :
    receiveData 10 gapSession [samplePacket]
        = Outcome.done gapSessionEnd (samplePacket :: gapSessionState.packets)
      ∧ ∃ st0 st, receiveLoop 10 gapSession freshBuffer [] [] = some st0
        ∧ receiveLoop 10 gapSession freshBuffer [samplePacket] [] = some st
        ∧ st.packets = [samplePacket] ++ st0.packets
        ∧ samplePacket :: gapSessionState.packets = [samplePacket] ++ st0.packets
        ∧ samplePacket :: gapSessionState.packets = st.packets :=
  ⟨by decide,
    match collection_insertion_only 10 gapSession gapSessionEnd [samplePacket]
        (samplePacket :: gapSessionState.packets) (by decide) with
    | ⟨st0, st, h1, h2, h3, h4, h5, _⟩ => ⟨st0, st, h1, h2, h3, h4, h5⟩⟩

/-- C12: when, in a run of `receiveData` that ends, the read of the answer for the entry
`k` of the gap set stops before 17 bytes, `requestMissingPackets` reports the incomplete
packet and goes on with the entries after `k`: the payloads handed to `send` are the
resend payloads of all the entries of the gap set, so of every entry after `k`, and `k`
is not a sequence number of the final collection. -/
theorem resend_failure_does_not_abort (fuel : Nat) (w w1 wk w2 : World)
    (packets1 : List Packet) (st : StreamState) (lastSeq : Int) (pre post : List Int) (k : Int)
    (buffer : List Nat) (total : Nat)
    (hdone : receiveData fuel w [] = Outcome.done w1 packets1)
    (hstream : receiveLoop fuel w freshBuffer [] [] = some st)
    (hlast : lastSequence st.packets = some lastSeq)
    (hgap : gapLoop fuel 1 lastSeq st.receivedSequences [] = some (pre ++ k :: post))
    (hpre : requestMissingPackets (st.world.print (Diag.disconnected st.world.lastError)) pre = some wk)
    (hread : readResent 18 (afterResendRequest wk k) freshBuffer 0 = some (w2, buffer, total))
    (hshort : total < 17) :
    w1.sent = st.world.sent ++ (pre ++ k :: post).map resendPayload
      ∧ requestMissingPackets (w2.print Diag.resentIncomplete) post = some w1
      ∧ (∀ j ∈ post, resendPayload j ∈ w1.sent)
      ∧ Diag.resentIncomplete ∈ w1.console
      ∧ k ∉ packets1.map (fun p => p.sequence) := by
  obtain ⟨st1, lastSeq1, missing1, hs1, hl1, hg1, hp1, hq1⟩ :=
    receiveData_done fuel w w1 [] packets1 hdone
  rw [hstream, Option.some.injEq] at hs1
  subst hs1
  rw [hlast, Option.some.injEq] at hl1
  subst hl1
  rw [hgap, Option.some.injEq] at hg1
  subst hg1
  have hsent := requestMissingPackets_sent _ _ _ hq1
  have hrest : requestMissingPackets (w2.print Diag.resentIncomplete) post = some w1 := by
    rw [requestMissingPackets_append, hpre, Option.some_bind, requestMissingPackets_cons,
      hread] at hq1
    simp only at hq1
    rw [if_neg (by omega)] at hq1
    exact hq1
  refine ⟨hsent, hrest, fun j hj => ?_,
    requestMissingPackets_console post _ w1 hrest _ (by simp [World.print]), fun hk => ?_⟩
  · rw [hsent]
    exact List.mem_append_right _ (List.mem_map.mpr ⟨j, by simp [hj], rfl⟩)
  · obtain ⟨new, hpk, hrecv, -⟩ := receiveLoop_inv fuel w freshBuffer [] [] st hstream
    rcases gapLoop_sound lastSeq st.receivedSequences fuel 1 [] _ hgap k (by simp) with h | h
    · simp at h
    · apply h
      rw [hrecv k]
      right
      rw [hp1, hpk] at hk
      simpa using hk

/-- Witness of C12 at the session with the gaps 2 and 3 in which the answer for 2 stops
after 10 bytes: the request for 3 is still sent. -/
theorem resend_failure_does_not_abort_witness :
    receiveData 10 failedResendSession [] = Outcome.done failedResendEnd failedResendState.packets
      ∧ failedResendEnd.sent = failedResendState.world.sent ++ ([] ++ 2 :: [3]).map resendPayload
      ∧ requestMissingPackets (failedResendMiddle.print Diag.resentIncomplete) [3]
          = some failedResendEnd
      ∧ (∀ j ∈ [(3 : Int)], resendPayload j ∈ failedResendEnd.sent)
      ∧ Diag.resentIncomplete ∈ failedResendEnd.console
      ∧ (2 : Int) ∉ failedResendState.packets.map (fun p => p.sequence) :=
  ⟨by decide,
    resend_failure_does_not_abort 10 failedResendSession failedResendEnd
      (failedResendState.world.print (Diag.disconnected 0)) failedResendMiddle
      failedResendState.packets failedResendState 4 [] [3] 2
      ((sampleFrame 2).take 10 ++ List.replicate 7 0) 10
      (by decide) (by decide) (by decide) (by decide) (by decide) (by decide) (by decide)⟩

/-- C15, as the claim states it, fails: the complete frame with side byte `X` is decoded
and stored like any other, with its side byte, and its sequence enters the received
set. -/
theorem invalid_side_frame_stored :
    (receiveLoop 10 invalidSideSession freshBuffer [] []).map
        (fun st => (st.packets, st.receivedSequences))
      = some ([decodeStreamed invalidSideFrame, decodeStreamed (sampleFrame 2)], [1, 2])
      ∧ (decodeStreamed invalidSideFrame).buySellIndicator = 88
      ∧ (decodeStreamed invalidSideFrame).sequence = 1 := by
  decide

/-- C15, amended: in a stream of complete frames of 17 bytes that ends with a close, every
frame is decoded and stored, whatever its side byte: the collection grows by the packets
of all the frames in arrival order, each packet keeps the side byte of its frame, and the
sequence of each frame is in the received set. -/
theorem frames_stored_whatever_side (frames : List (List Nat)) (rest : List RecvEvent)
    (w : World) (buffer : List Nat) (packets : List Packet) (received : List Int) (fuel : Nat)
    (hlen : ∀ f ∈ frames, f.length = 17)
    (hw : w.incoming = frames.map RecvEvent.data ++ RecvEvent.closed :: rest)
    (hfuel : frames.length < fuel) :
    ∃ st, receiveLoop fuel w buffer packets received = some st
      ∧ st.packets = packets ++ frames.map decodeStreamed
      ∧ ∀ f ∈ frames, decodeStreamed f ∈ st.packets
          ∧ (decodeStreamed f).buySellIndicator = byteAt f 4
          ∧ (decodeStreamed f).sequence ∈ st.receivedSequences := by
  obtain ⟨st, hst, hp, hr, -⟩ := receiveLoop_reads frames rest w buffer packets received fuel
    (fun r hr => by rw [hlen r hr]; omega) hw hfuel
  rw [fullReads_of_full frames hlen] at hp hr
  refine ⟨st, hst, hp, fun f hf => ⟨?_, rfl, ?_⟩⟩
  · rw [hp]
    exact List.mem_append_right _ (List.mem_map.mpr ⟨f, hf, rfl⟩)
  · rw [hr, mem_insertSequences]
    exact Or.inr ⟨f, hf, rfl⟩

/-- Witness of the amended C15 at the stream of the frame with side byte `X` and the
frame 2. -/
theorem frames_stored_whatever_side_witness :
    (∀ f ∈ [invalidSideFrame, sampleFrame 2], f.length = 17)
      ∧ ∃ st, receiveLoop 10 invalidSideSession freshBuffer [] [] = some st
        ∧ st.packets = [] ++ [invalidSideFrame, sampleFrame 2].map decodeStreamed
        ∧ ∀ f ∈ [invalidSideFrame, sampleFrame 2], decodeStreamed f ∈ st.packets
            ∧ (decodeStreamed f).buySellIndicator = byteAt f 4
            ∧ (decodeStreamed f).sequence ∈ st.receivedSequences :=
  ⟨by decide,
    frames_stored_whatever_side [invalidSideFrame, sampleFrame 2] [] invalidSideSession
      freshBuffer [] [] 10 (by decide) (by decide) (by decide)⟩

/-- C13, as the claim states it, fails: when the server delivers the frame 1 and then the
frame 2 twice and closes, the session is complete without any resend, and the sequence 2
occurs twice in the final collection. -/
theorem duplicate_frames_stored_twice :
    ∃ w1 packets1, receiveData 10 duplicateSession [] = Outcome.done w1 packets1
      ∧ w1.sent = []
      ∧ packets1.map (fun p => p.sequence) = [1, 2, 2]
      ∧ ¬ (packets1.map (fun p => p.sequence)).Nodup :=
  ⟨{ incoming := [], sendResults := [], sent := [], console := [Diag.disconnected 0],
     lastError := 0 },
    [decodeStreamed (sampleFrame 1), decodeStreamed (sampleFrame 2),
      decodeStreamed (sampleFrame 2)], by decide, by decide, by decide, by decide⟩

/-- C13, amended: when the stream delivers, in reads of 17 bytes, frames whose sequence
numbers are exactly the numbers `1..max`, `max` being the sequence of the last frame and
below `2^31 - 1`, and then closes, `receiveData` ends without handing anything to `send`,
and the final collection is the packets of the delivered frames, one per frame, in
arrival order: its sequence numbers are exactly `1..max`, without duplicates when no
sequence number was delivered twice. -/
theorem complete_stream_collection (frames : List (List Nat)) (rest : List RecvEvent)
    (w : World) (lastSeq : Int) (fuel : Nat)
    (hlen : ∀ f ∈ frames, f.length = 17)
    (hw : w.incoming = frames.map RecvEvent.data ++ RecvEvent.closed :: rest)
    (hlast : lastSequence (frames.map decodeStreamed) = some lastSeq)
    (hexact : ∀ k, (∃ f ∈ frames, (decodeStreamed f).sequence = k) ↔ (1 ≤ k ∧ k ≤ lastSeq))
    (hmax : lastSeq < 2 ^ 31 - 1) (hfuel : frames.length < fuel)
    (hgapFuel : lastSeq.toNat < fuel) :
    ∃ w1, receiveData fuel w [] = Outcome.done w1 (frames.map decodeStreamed)
      ∧ w1.sent = w.sent ∧ w1.incoming = rest
      ∧ (∀ k, k ∈ (frames.map decodeStreamed).map (fun p => p.sequence)
          ↔ (1 ≤ k ∧ k ≤ lastSeq))
      ∧ ((frames.map (fun f => (decodeStreamed f).sequence)).Nodup →
          ((frames.map decodeStreamed).map (fun p => p.sequence)).Nodup) := by
  obtain ⟨st, hst, hp, hr, hi, hs, -⟩ := receiveLoop_reads frames rest w freshBuffer [] [] fuel
    (fun r hr => by rw [hlen r hr]; omega) hw hfuel
  rw [fullReads_of_full frames hlen] at hp hr
  rw [List.nil_append] at hp
  have hmem : lastSeq ∈ (frames.map decodeStreamed).map (fun p => p.sequence) :=
    lastSequence_mem _ _ hlast
  have h1 : 1 ≤ lastSeq := by
    obtain ⟨p, hpm, hps⟩ := List.mem_map.mp hmem
    obtain ⟨f, hf, rfl⟩ := List.mem_map.mp hpm
    exact ((hexact lastSeq).mp ⟨f, hf, hps⟩).1
  have hgap : gapLoop fuel 1 lastSeq st.receivedSequences [] = some [] := by
    refine gapLoop_complete lastSeq _ (by omega) hmax (fun k hk1 hk2 => ?_) fuel hgapFuel
    rw [hr, mem_insertSequences]
    exact Or.inr ((hexact k).mpr ⟨hk1, hk2⟩)
  obtain ⟨w1, hdone, hq⟩ := receiveData_of_parts fuel w [] st lastSeq [] hst
    (by rw [hp]; exact hlast) hgap
  simp only [requestMissingPackets, Option.some.injEq] at hq
  refine ⟨w1, by rw [hdone, hp], by rw [← hq]; exact hs, by rw [← hq]; exact hi,
    fun k => ?_, fun hn => by rw [List.map_map]; exact hn⟩
  rw [← hexact k]
  simp only [List.mem_map, exists_exists_and_eq_and]

/-- Witness of the amended C13 at the stream of the frames 1 to 4. -/
theorem complete_stream_collection_witness :
    (∀ f ∈ fourFrames, f.length = 17)
      ∧ lastSequence (fourFrames.map decodeStreamed) = some 4
      ∧ ∃ w1, receiveData 10 fourFrameSession [] = Outcome.done w1 (fourFrames.map decodeStreamed)
        ∧ w1.sent = fourFrameSession.sent ∧ w1.incoming = []
        ∧ (∀ k, k ∈ (fourFrames.map decodeStreamed).map (fun p => p.sequence)
            ↔ (1 ≤ k ∧ k ≤ 4))
        ∧ ((fourFrames.map (fun f => (decodeStreamed f).sequence)).Nodup →
            ((fourFrames.map decodeStreamed).map (fun p => p.sequence)).Nodup) :=
  ⟨by decide, by decide,
    complete_stream_collection fourFrames [] fourFrameSession 4 10 (by decide) (by decide)
      (by decide)
      (fun k => by
        constructor
        · rintro ⟨f, hf, rfl⟩
          simp only [fourFrames, List.mem_cons, List.mem_singleton, List.not_mem_nil,
            or_false] at hf
          rcases hf with rfl | rfl | rfl | rfl <;> decide
        · rintro ⟨h1, h2⟩
          have hk : k = 1 ∨ k = 2 ∨ k = 3 ∨ k = 4 := by omega
          rcases hk with rfl | rfl | rfl | rfl
          · exact ⟨sampleFrame 1, by decide, by decide⟩
          · exact ⟨sampleFrame 2, by decide, by decide⟩
          · exact ⟨sampleFrame 3, by decide, by decide⟩
          · exact ⟨sampleFrame 4, by decide, by decide⟩)
      (by decide) (by decide) (by decide)⟩

/-- C16: in the scenario of the frames 1 to 4, a read of 10 bytes and a close, the run
of `receiveData` ends with exactly the four packets, the bound 4, an empty gap set and
nothing handed to `send`. In general, for a stream given by its reads, a last read of 1
to 16 bytes before the close is reported, adds no packet, and leaves the received set,
the bound and the gap set as they are without it; the run of `receiveData` then ends
with the same collection and the same payloads handed to `send`. -/
theorem truncated_final_read_discarded :
    (receiveData 10 truncatedSession []
        = Outcome.done
            { incoming := [], sendResults := [], sent := [],
              console := [Diag.incompletePacket, Diag.disconnected 0], lastError := 0 }
            (fourFrames.map decodeStreamed)
      ∧ (fourFrames.map decodeStreamed).map (fun p => p.sequence) = [1, 2, 3, 4]
      ∧ lastSequence (fourFrames.map decodeStreamed) = some 4
      ∧ gapLoop 10 1 4 (insertSequences [] fourFrames) [] = some [])
    ∧ ∀ (reads : List (List Nat)) (c : List Nat) (rest : List RecvEvent) (w0 : World)
        (packets : List Packet) (fuel : Nat),
        (∀ r ∈ reads, 0 < r.length ∧ r.length ≤ 17) → 0 < c.length → c.length < 17 →
        reads.length + 1 < fuel →
        ∃ st stt,
          receiveLoop fuel
              { w0 with incoming := reads.map RecvEvent.data ++ RecvEvent.closed :: rest }
              freshBuffer packets [] = some st
          ∧ receiveLoop fuel
              { w0 with incoming :=
                  reads.map RecvEvent.data ++ RecvEvent.data c :: RecvEvent.closed :: rest }
              freshBuffer packets [] = some stt
          ∧ stt.packets = st.packets
          ∧ stt.receivedSequences = st.receivedSequences
          ∧ lastSequence stt.packets = lastSequence st.packets
          ∧ (∀ (gapFuel : Nat) (lastSeq : Int),
              gapLoop gapFuel 1 lastSeq stt.receivedSequences []
                = gapLoop gapFuel 1 lastSeq st.receivedSequences [])
          ∧ Diag.incompletePacket ∈ stt.world.console
          ∧ ∀ w1 packets1,
              receiveData fuel
                  { w0 with incoming := reads.map RecvEvent.data ++ RecvEvent.closed :: rest }
                  packets = Outcome.done w1 packets1 →
              ∃ w1t,
                receiveData fuel
                    { w0 with incoming :=
                        reads.map RecvEvent.data ++ RecvEvent.data c :: RecvEvent.closed :: rest }
                    packets = Outcome.done w1t packets1
                ∧ w1t.sent = w1.sent := by
  refine ⟨by decide, fun reads c rest w0 packets fuel hreads hc0 hc hfuel => ?_⟩
  obtain ⟨st, hst, hp, hr, -, hs, -, -, -⟩ := receiveLoop_reads reads rest
    { w0 with incoming := reads.map RecvEvent.data ++ RecvEvent.closed :: rest }
    freshBuffer packets [] fuel hreads rfl (by omega)
  obtain ⟨stt, hstt, hpt, hrt, -, hst2, -, hcon, -⟩ := receiveLoop_reads (reads ++ [c]) rest
    { w0 with incoming :=
        reads.map RecvEvent.data ++ RecvEvent.data c :: RecvEvent.closed :: rest }
    freshBuffer packets [] fuel
    (fun r hr => by
      rcases List.mem_append.mp hr with h | h
      · exact hreads r h
      · simp only [List.mem_singleton] at h
        subst h
        exact ⟨hc0, by omega⟩)
    (by simp) (by simp; omega)
  rw [fullReads_append_short reads c hc] at hpt hrt
  have hpe : stt.packets = st.packets := by rw [hpt, hp]
  have hre : stt.receivedSequences = st.receivedSequences := by rw [hrt, hr]
  refine ⟨st, stt, hst, hstt, hpe, hre, by rw [hpe], fun g l => by rw [hre], ?_, ?_⟩
  · rw [hcon]
    refine List.mem_append_right _ (List.mem_map.mpr ⟨c, ?_, rfl⟩)
    simp [shortReads, hc]
  · intro w1 packets1 hdone
    obtain ⟨st1, lastSeq, missing, hs1, hl1, hg1, hp1, hq1⟩ :=
      receiveData_done fuel _ w1 packets packets1 hdone
    rw [hst, Option.some.injEq] at hs1
    subst hs1
    obtain ⟨w1t, hdt, hqt⟩ := receiveData_of_parts fuel _ packets stt lastSeq missing hstt
      (by rw [hpe]; exact hl1) (by rw [hre]; exact hg1)
    refine ⟨w1t, by rw [hdt, hpe, hp1], ?_⟩
    rw [requestMissingPackets_sent _ _ _ hqt, requestMissingPackets_sent _ _ _ hq1]
    simp only [World.print]
    rw [hst2, hs]

/-- Witness of C16 at the frames 1 to 4 followed by 10 bytes of the frame 5: the stream
with the cut read ends like the stream without it. -/
theorem truncated_final_read_discarded_witness :
    (∀ r ∈ fourFrames, 0 < r.length ∧ r.length ≤ 17)
      ∧ ∃ st stt,
        receiveLoop 10
            { worldOf [] with incoming := fourFrames.map RecvEvent.data ++ RecvEvent.closed :: [] }
            freshBuffer [] [] = some st
        ∧ receiveLoop 10
            { worldOf [] with incoming :=
                fourFrames.map RecvEvent.data
                  ++ RecvEvent.data ((sampleFrame 5).take 10) :: RecvEvent.closed :: [] }
            freshBuffer [] [] = some stt
        ∧ stt.packets = st.packets
        ∧ stt.receivedSequences = st.receivedSequences :=
  ⟨by decide,
    match truncated_final_read_discarded.2 fourFrames ((sampleFrame 5).take 10) [] (worldOf [])
        [] 10 (by decide) (by decide) (by decide) (by decide) with
    | ⟨st, stt, h1, h2, h3, h4, _⟩ => ⟨st, stt, h1, h2, h3, h4⟩⟩

/-- C14, as the claim states it, fails: after the frames 1 and 3 a read returns an error,
and `receiveData` still computes the gap set and hands the resend request for 2 to
`send`. -/
theorem error_does_not_abort :
    ∃ w1 packets1, receiveData 10 errorSession [] = Outcome.done w1 packets1
      ∧ w1.sent = [[2, 0, 0, 0, 2]]
      ∧ w1.console = [Diag.disconnected 10054, Diag.receivedResent 2]
      ∧ packets1.map (fun p => p.sequence) = [1, 3] :=
  ⟨errorSessionEnd, [decodeStreamed (sampleFrame 1), decodeStreamed (sampleFrame 3)],
    by decide, by decide, by decide, by decide⟩

/-- C14, amended: a read that returns an error ends the streaming loop as a close does;
when `receiveData` ends on a stream, it ends on the stream in which each error is a
close as well, with the same collection and the same payloads handed to `send`, so it
goes on to the gap computation and the resend requests; the console is the same up to
the value of `WSAGetLastError()` printed in the line of the disconnect. -/
theorem error_handled_as_closure (fuel : Nat) (w w1 : World) (packets packets1 : List Packet)
    (h : receiveData fuel w packets = Outcome.done w1 packets1) :
    ∃ w2, receiveData fuel w.errorsAsClosed packets = Outcome.done w2 packets1
      ∧ w2.sent = w1.sent
      ∧ w2.console.map Diag.withoutErrorCode = w1.console.map Diag.withoutErrorCode := by
  have h1 := receiveData_withoutErrors fuel w.errorsAsClosed packets
  rw [withoutErrors_errorsAsClosed, receiveData_withoutErrors, h] at h1
  cases h2 : receiveData fuel w.errorsAsClosed packets with
  | done w2 packets2 =>
    rw [h2] at h1
    simp only [Outcome.withoutErrors, Outcome.done.injEq] at h1
    refine ⟨w2, by rw [h1.2], ?_, ?_⟩
    · exact (congrArg World.sent h1.1).symm
    · exact (congrArg World.console h1.1).symm
  | undefinedBehaviour =>
    rw [h2] at h1
    simp [Outcome.withoutErrors] at h1
  | outOfFuel =>
    rw [h2] at h1
    simp [Outcome.withoutErrors] at h1

/-- Witness of the amended C14 at the stream of the frames 1 and 3 followed by the error
10054: with the error the disconnect line prints 10054, with a close it prints 0, and
the collection and the resend request are the same. -/
theorem error_handled_as_closure_witness :
    receiveData 10 errorSession []
        = Outcome.done errorSessionEnd
            [decodeStreamed (sampleFrame 1), decodeStreamed (sampleFrame 3)]
      ∧ receiveData 10 errorSession.errorsAsClosed []
        = Outcome.done errorSessionClosedEnd
            [decodeStreamed (sampleFrame 1), decodeStreamed (sampleFrame 3)]
      ∧ errorSessionEnd.console ≠ errorSessionClosedEnd.console
      ∧ ∃ w2, receiveData 10 errorSession.errorsAsClosed []
          = Outcome.done w2 [decodeStreamed (sampleFrame 1), decodeStreamed (sampleFrame 3)]
        ∧ w2.sent = errorSessionEnd.sent
        ∧ w2.console.map Diag.withoutErrorCode
            = errorSessionEnd.console.map Diag.withoutErrorCode :=
  ⟨by decide, by decide, by decide,
    error_handled_as_closure 10 errorSession errorSessionEnd []
      [decodeStreamed (sampleFrame 1), decodeStreamed (sampleFrame 3)] (by decide)⟩

end SocketConnection
